import Mathlib

/-!
Verification development for the GraphiQL request-builder form
(`src/components/graphiForm/GraphiForm.tsx`).

JavaScript strings are modelled as lists of UTF-16 code units (`JStr`).
The browser built-ins used by the component (`btoa`, `atob`,
`encodeURIComponent`, `JSON.stringify`/`JSON.parse`, `URLSearchParams`,
`String.prototype.trim`, `String.prototype.split`) are embedded as
executable functions on such lists, and the component's handlers and
effects (`handleEncodeURL`, the mount-time decode effect, header
reconciliation, `handleFormSubmit`, `fetchSDL` and its guard, the
`sdlEndpoint` effect) are translated on top of them.
-/

namespace GraphiQL

/-- A JavaScript string: a list of UTF-16 code units (each `< 0x10000`). -/
abbrev JStr := List Nat

/-- Code units of a Lean string literal consisting of BMP characters
(used only to write concrete JS strings; for ASCII text the code points
coincide with the UTF-16 code units). -/
def js (s : String) : JStr := s.data.map Char.toNat

/-! ## Base64 (`btoa` / `atob`) -/

/-- Character of the standard base64 alphabet for a 6-bit value. -/
def b64Char (n : Nat) : Nat :=
  if n < 26 then 65 + n
  else if n < 52 then 71 + n
  else if n < 62 then n - 4
  else if n = 62 then 43
  else 47

/-- Index of a character in the standard base64 alphabet. -/
def b64Index (c : Nat) : Option Nat :=
  if 65 ≤ c ∧ c ≤ 90 then some (c - 65)
  else if 97 ≤ c ∧ c ≤ 122 then some (c - 71)
  else if 48 ≤ c ∧ c ≤ 57 then some (c + 4)
  else if c = 43 then some 62
  else if c = 47 then some 63
  else none

/-- Base64 encoding of a byte list, with `=` (61) padding: the body of
`btoa` (`convertToBase64`) once its input is known to be 8-bit. -/
def btoaBytes : JStr → JStr
  | [] => []
  | [b0] => [b64Char (b0 / 4), b64Char (b0 % 4 * 16), 61, 61]
  | [b0, b1] => [b64Char (b0 / 4), b64Char (b0 % 4 * 16 + b1 / 16), b64Char (b1 % 16 * 4), 61]
  | b0 :: b1 :: b2 :: rest =>
      b64Char (b0 / 4) :: b64Char (b0 % 4 * 16 + b1 / 16) ::
      b64Char (b1 % 16 * 4 + b2 / 64) :: b64Char (b2 % 64) :: btoaBytes rest

/-- The unpadded part of the base64 encoding. -/
def b64Core : JStr → JStr
  | [] => []
  | [b0] => [b64Char (b0 / 4), b64Char (b0 % 4 * 16)]
  | [b0, b1] => [b64Char (b0 / 4), b64Char (b0 % 4 * 16 + b1 / 16), b64Char (b1 % 16 * 4)]
  | b0 :: b1 :: b2 :: rest =>
      b64Char (b0 / 4) :: b64Char (b0 % 4 * 16 + b1 / 16) ::
      b64Char (b1 % 16 * 4 + b2 / 64) :: b64Char (b2 % 64) :: b64Core rest

/-- The `=` padding of the base64 encoding. -/
def b64Pad : JStr → JStr
  | [] => []
  | [_] => [61, 61]
  | [_, _] => [61]
  | _ :: _ :: _ :: rest => b64Pad rest

/-- `window.btoa` (`convertToBase64`): defined on 8-bit strings only;
a code unit above 255 raises `InvalidCharacterError` (modelled `none`). -/
def btoa (s : JStr) : Option JStr :=
  if s.all (fun b => b < 256) then some (btoaBytes s) else none

/-- ASCII whitespace removed by the forgiving-base64 decode. -/
def isB64Ws (c : Nat) : Bool :=
  c = 9 || c = 10 || c = 12 || c = 13 || c = 32

/-- Decode the padding-stripped base64 text back to bytes; any character
outside the alphabet (including a stray `=`) fails. -/
def atobCore : JStr → Option JStr
  | [] => some []
  | [_] => none
  | [c0, c1] =>
      match b64Index c0, b64Index c1 with
      | some n0, some n1 => some [n0 * 4 + n1 / 16]
      | _, _ => none
  | [c0, c1, c2] =>
      match b64Index c0, b64Index c1, b64Index c2 with
      | some n0, some n1, some n2 => some [n0 * 4 + n1 / 16, n1 % 16 * 16 + n2 / 4]
      | _, _, _ => none
  | c0 :: c1 :: c2 :: c3 :: rest =>
      match b64Index c0, b64Index c1, b64Index c2, b64Index c3, atobCore rest with
      | some n0, some n1, some n2, some n3, some tl =>
          some ((n0 * 4 + n1 / 16) :: (n1 % 16 * 16 + n2 / 4) :: (n2 % 4 * 64 + n3) :: tl)
      | _, _, _, _, _ => none

/-- Strip up to two trailing `=` characters. -/
def b64StripPad (t : JStr) : JStr :=
  match t.reverse with
  | c1 :: c2 :: r =>
      if c1 = 61 then (if c2 = 61 then r.reverse else (c2 :: r).reverse) else t
  | [c1] => if c1 = 61 then [] else t
  | [] => t

/-- Second stage of `atob`: reject a leftover length of one, decode. -/
def atobNoPad (t2 : JStr) : Option JStr :=
  if t2.length % 4 = 1 then none else atobCore t2

/-- `window.atob` (`convertFromBase64`): the WHATWG forgiving-base64
decode — strip ASCII whitespace, strip padding when the length is a
multiple of four, reject a leftover length of one, decode. -/
def atob (s : JStr) : Option JStr :=
  if ((s.filter fun c => !isB64Ws c).length) % 4 = 0 then
    atobNoPad (b64StripPad (s.filter fun c => !isB64Ws c))
  else
    atobNoPad (s.filter fun c => !isB64Ws c)

theorem b64Index_b64Char : ∀ n, n < 64 → b64Index (b64Char n) = some n := by decide

theorem b64Char_ge_43 : ∀ n, n < 64 → 43 ≤ b64Char n := by decide

theorem b64Char_ne_61 : ∀ n, n < 64 → b64Char n ≠ 61 := by decide

theorem b64Char_ne_63 : ∀ n, n < 64 → b64Char n ≠ 63 := by decide

/-- Every character of the unpadded encoding is an alphabet character. -/
theorem b64Core_mem (bs : JStr) (h : ∀ b ∈ bs, b < 256) :
    ∀ c ∈ b64Core bs, ∃ n, n < 64 ∧ c = b64Char n := by
  induction bs using b64Core.induct with
  | case1 => intro c hc; simp [b64Core] at hc
  | case2 b0 =>
      intro c hc
      have hb0 : b0 < 256 := h b0 (by simp)
      simp only [b64Core, List.mem_cons, List.not_mem_nil, or_false] at hc
      rcases hc with rfl | rfl
      · exact ⟨b0 / 4, by omega, rfl⟩
      · exact ⟨b0 % 4 * 16, by omega, rfl⟩
  | case3 b0 b1 =>
      intro c hc
      have hb0 : b0 < 256 := h b0 (by simp)
      have hb1 : b1 < 256 := h b1 (by simp)
      simp only [b64Core, List.mem_cons, List.not_mem_nil, or_false] at hc
      rcases hc with rfl | rfl | rfl
      · exact ⟨b0 / 4, by omega, rfl⟩
      · exact ⟨b0 % 4 * 16 + b1 / 16, by omega, rfl⟩
      · exact ⟨b1 % 16 * 4, by omega, rfl⟩
  | case4 b0 b1 b2 rest ih =>
      intro c hc
      have hb0 : b0 < 256 := h b0 (by simp)
      have hb1 : b1 < 256 := h b1 (by simp)
      have hb2 : b2 < 256 := h b2 (by simp)
      simp only [b64Core, List.mem_cons] at hc
      rcases hc with rfl | rfl | rfl | rfl | hc
      · exact ⟨b0 / 4, by omega, rfl⟩
      · exact ⟨b0 % 4 * 16 + b1 / 16, by omega, rfl⟩
      · exact ⟨b1 % 16 * 4 + b2 / 64, by omega, rfl⟩
      · exact ⟨b2 % 64, by omega, rfl⟩
      · exact ih (fun b hb => h b (by simp [hb])) c hc

theorem btoaBytes_eq_core_pad (bs : JStr) : btoaBytes bs = b64Core bs ++ b64Pad bs := by
  induction bs using btoaBytes.induct with
  | case1 => simp [btoaBytes, b64Core, b64Pad]
  | case2 b0 => simp [btoaBytes, b64Core, b64Pad]
  | case3 b0 b1 => simp [btoaBytes, b64Core, b64Pad]
  | case4 b0 b1 b2 rest ih => simp [btoaBytes, b64Core, b64Pad, ih]

theorem b64Core_length_mod (bs : JStr) : (b64Core bs).length % 4 ≠ 1 := by
  induction bs using b64Core.induct with
  | case1 => simp [b64Core]
  | case2 b0 => simp [b64Core]
  | case3 b0 b1 => simp [b64Core]
  | case4 b0 b1 b2 rest ih => simp only [b64Core, List.length_cons]; omega

theorem btoaBytes_length_mod (bs : JStr) : (btoaBytes bs).length % 4 = 0 := by
  induction bs using btoaBytes.induct with
  | case1 => simp [btoaBytes]
  | case2 b0 => simp [btoaBytes]
  | case3 b0 b1 => simp [btoaBytes]
  | case4 b0 b1 b2 rest ih => simp only [btoaBytes, List.length_cons]; omega

theorem atobCore_b64Core (bs : JStr) (h : ∀ b ∈ bs, b < 256) :
    atobCore (b64Core bs) = some bs := by
  induction bs using b64Core.induct with
  | case1 => simp [b64Core, atobCore]
  | case2 b0 =>
      have hb0 : b0 < 256 := h b0 (by simp)
      have e0 := b64Index_b64Char (b0 / 4) (by omega)
      have e1 := b64Index_b64Char (b0 % 4 * 16) (by omega)
      simp only [b64Core, atobCore, e0, e1, Option.some.injEq, List.cons.injEq, and_true]
      omega
  | case3 b0 b1 =>
      have hb0 : b0 < 256 := h b0 (by simp)
      have hb1 : b1 < 256 := h b1 (by simp)
      have e0 := b64Index_b64Char (b0 / 4) (by omega)
      have e1 := b64Index_b64Char (b0 % 4 * 16 + b1 / 16) (by omega)
      have e2 := b64Index_b64Char (b1 % 16 * 4) (by omega)
      simp only [b64Core, atobCore, e0, e1, e2, Option.some.injEq, List.cons.injEq, and_true]
      constructor
      · omega
      · omega
  | case4 b0 b1 b2 rest ih =>
      have hb0 : b0 < 256 := h b0 (by simp)
      have hb1 : b1 < 256 := h b1 (by simp)
      have hb2 : b2 < 256 := h b2 (by simp)
      have ih2 := ih (fun b hb => h b (by simp [hb]))
      have e0 := b64Index_b64Char (b0 / 4) (by omega)
      have e1 := b64Index_b64Char (b0 % 4 * 16 + b1 / 16) (by omega)
      have e2 := b64Index_b64Char (b1 % 16 * 4 + b2 / 64) (by omega)
      have e3 := b64Index_b64Char (b2 % 64) (by omega)
      simp only [b64Core, atobCore, e0, e1, e2, e3, ih2, Option.some.injEq, List.cons.injEq,
        and_true, true_and]
      refine ⟨by omega, by omega, by omega⟩

theorem b64Pad_cases (bs : JStr) :
    b64Pad bs = [] ∨ b64Pad bs = [61] ∨ b64Pad bs = [61, 61] := by
  induction bs using b64Pad.induct with
  | case1 => left; rfl
  | case2 => right; right; rfl
  | case3 => right; left; rfl
  | case4 _ _ _ rest ih => exact ih

theorem b64StripPad_concat_two (y : JStr) (c : Nat) (hc : c ≠ 61) :
    b64StripPad (y ++ [c] ++ [61, 61]) = y ++ [c] := by
  have hrev : (y ++ [c] ++ [61, 61]).reverse = 61 :: 61 :: c :: y.reverse := by simp
  simp [b64StripPad, hrev]

theorem b64StripPad_concat_one (y : JStr) (c : Nat) (hc : c ≠ 61) :
    b64StripPad (y ++ [c] ++ [61]) = y ++ [c] := by
  have hrev : (y ++ [c] ++ [61]).reverse = 61 :: c :: y.reverse := by simp
  simp [b64StripPad, hrev, hc]

theorem b64StripPad_no_pad (x : JStr) (hx : ∀ c ∈ x, c ≠ 61) :
    b64StripPad x = x := by
  obtain rfl | ⟨y, c, rfl⟩ := x.eq_nil_or_concat'
  · rfl
  have hc : c ≠ 61 := hx c (by simp)
  obtain rfl | ⟨z, d, rfl⟩ := y.eq_nil_or_concat'
  · simp [b64StripPad, hc]
  have hrev : (z ++ [d] ++ [c]).reverse = c :: d :: z.reverse := by simp
  simp [b64StripPad, hrev, hc]

/-- The unpadded encoding of a non-empty byte list ends in a non-`=`
alphabet character. -/
theorem b64Core_concat (a : Nat) (l : JStr) (h : ∀ b ∈ a :: l, b < 256) :
    ∃ y c, b64Core (a :: l) = y ++ [c] ∧ c ≠ 61 := by
  have hne : b64Core (a :: l) ≠ [] := by
    cases l with
    | nil => simp [b64Core]
    | cons a2 l2 => cases l2 <;> simp [b64Core]
  obtain hnil | ⟨y, c, hyc⟩ := (b64Core (a :: l)).eq_nil_or_concat'
  · exact absurd hnil hne
  refine ⟨y, c, hyc, ?_⟩
  have hc : c ∈ b64Core (a :: l) := by rw [hyc]; simp
  obtain ⟨n, hn, rfl⟩ := b64Core_mem (a :: l) h c hc
  exact b64Char_ne_61 n hn

/-- `atob` is a left inverse of `btoa` on 8-bit strings: decoding a
`convertToBase64` result recovers the original text. -/
theorem atob_btoaBytes (bs : JStr) (h : ∀ b ∈ bs, b < 256) :
    atob (btoaBytes bs) = some bs := by
  have hmem : ∀ c ∈ btoaBytes bs, 43 ≤ c := by
    intro c hc
    rw [btoaBytes_eq_core_pad] at hc
    rcases List.mem_append.mp hc with hc | hc
    · obtain ⟨n, hn, rfl⟩ := b64Core_mem bs h c hc
      exact b64Char_ge_43 n hn
    · have : c = 61 := by
        rcases b64Pad_cases bs with hp | hp | hp <;> rw [hp] at hc <;> simp at hc <;> omega
      omega
  have hfilter : (btoaBytes bs).filter (fun c => !isB64Ws c) = btoaBytes bs := by
    apply List.filter_eq_self.mpr
    intro c hc
    have := hmem c hc
    simp only [isB64Ws, Bool.not_eq_true', Bool.or_eq_false_iff, decide_eq_false_iff_not]
    omega
  have hstrip : b64StripPad (btoaBytes bs) = b64Core bs := by
    rw [btoaBytes_eq_core_pad]
    cases bs with
    | nil => simp [b64Pad, b64StripPad, b64Core]
    | cons a l =>
      obtain ⟨y, c, hyc, hc⟩ := b64Core_concat a l h
      rcases b64Pad_cases (a :: l) with hp | hp | hp <;> rw [hp, hyc]
      · simpa using b64StripPad_no_pad (y ++ [c]) (by
          intro d hd
          rcases List.mem_append.mp hd with hd | hd
          · have : d ∈ b64Core (a :: l) := by rw [hyc]; simp [hd]
            obtain ⟨n, hn, rfl⟩ := b64Core_mem (a :: l) h d this
            exact b64Char_ne_61 n hn
          · simp at hd
            subst hd
            exact hc)
      · exact b64StripPad_concat_one y c hc
      · exact b64StripPad_concat_two y c hc
  unfold atob
  rw [hfilter, if_pos (btoaBytes_length_mod bs), hstrip]
  unfold atobNoPad
  rw [if_neg (b64Core_length_mod bs)]
  exact atobCore_b64Core bs h

/-! ## JSON (`JSON.stringify` of the request body, `JSON.parse`) -/

/-- A parsed JSON value.  Number tokens are kept as their lexeme (their
numeric value is never consumed by the component). -/
inductive Json where
  | null : Json
  | bool : Bool → Json
  | num : JStr → Json
  | str : JStr → Json
  | arr : List Json → Json
  | obj : List (JStr × Json) → Json

def isHighSurrogate (u : Nat) : Bool := 55296 ≤ u && u < 56320

def isLowSurrogate (u : Nat) : Bool := 56320 ≤ u && u < 57344

/-- Lowercase hex digit. -/
def hexDigitL (n : Nat) : Nat := if n < 10 then 48 + n else 87 + n

/-- Four lowercase hex digits of a code unit (`\uXXXX`). -/
def hex4 (u : Nat) : JStr :=
  [hexDigitL (u / 4096 % 16), hexDigitL (u / 256 % 16), hexDigitL (u / 16 % 16), hexDigitL (u % 16)]

/-- `JSON.stringify` escape of one code unit (well-formed stringify:
quote, backslash, short control escapes, `\u` for other controls and for
lone surrogates). -/
def escapeUnit (u : Nat) : JStr :=
  if u = 34 then [92, 34]
  else if u = 92 then [92, 92]
  else if u = 8 then [92, 98]
  else if u = 9 then [92, 116]
  else if u = 10 then [92, 110]
  else if u = 12 then [92, 102]
  else if u = 13 then [92, 114]
  else if u < 32 then 92 :: 117 :: hex4 u
  else if 55296 ≤ u ∧ u < 57344 then 92 :: 117 :: hex4 u
  else [u]

/-- `JSON.stringify` escaping of a string: a well-paired surrogate pair
is emitted literally, everything else unit by unit. -/
def escapeUnits : JStr → JStr
  | [] => []
  | [u] => escapeUnit u
  | u :: v :: rest =>
      if isHighSurrogate u && isLowSurrogate v then u :: v :: escapeUnits rest
      else escapeUnit u ++ escapeUnits (v :: rest)

/-- `JSON.stringify` of a string value. -/
def quoteJson (s : JStr) : JStr := 34 :: (escapeUnits s ++ [34])

/-- `JSON.stringify({ query: q, variables: v })` with string-valued
fields, as built by `handleEncodeURL`. -/
def stringifyQV (q v : JStr) : JStr :=
  123 :: (quoteJson (js "query") ++
    58 :: (quoteJson q ++
      44 :: (quoteJson (js "variables") ++
        58 :: (quoteJson v ++ [125]))))

/-- JSON insignificant whitespace. -/
def jsonWs (c : Nat) : Bool := c = 32 || c = 9 || c = 10 || c = 13

def skipWs (s : JStr) : JStr := s.dropWhile jsonWs

/-- Hex digit value (both cases), as accepted after `\u`. -/
def unhex (c : Nat) : Option Nat :=
  if 48 ≤ c ∧ c ≤ 57 then some (c - 48)
  else if 97 ≤ c ∧ c ≤ 102 then some (c - 87)
  else if 65 ≤ c ∧ c ≤ 70 then some (c - 55)
  else none

/-- Prepend a unit to the string being accumulated by the string parser. -/
def mapCons (u : Nat) : Option (JStr × JStr) → Option (JStr × JStr)
  | some (s, r) => some (u :: s, r)
  | none => none

/-- JSON string-literal body parser (after the opening quote): literal
units, the eight escapes, `\uXXXX`; an unescaped control character or an
unterminated literal fails. -/
def parseStringBody : JStr → Option (JStr × JStr)
  | [] => none
  | c :: rest =>
      if c = 34 then some ([], rest)
      else if c = 92 then
        match rest with
        | [] => none
        | e :: rest2 =>
            if e = 34 then mapCons 34 (parseStringBody rest2)
            else if e = 92 then mapCons 92 (parseStringBody rest2)
            else if e = 47 then mapCons 47 (parseStringBody rest2)
            else if e = 98 then mapCons 8 (parseStringBody rest2)
            else if e = 102 then mapCons 12 (parseStringBody rest2)
            else if e = 110 then mapCons 10 (parseStringBody rest2)
            else if e = 114 then mapCons 13 (parseStringBody rest2)
            else if e = 116 then mapCons 9 (parseStringBody rest2)
            else if e = 117 then
              match rest2 with
              | h1 :: h2 :: h3 :: h4 :: rest3 =>
                  match unhex h1, unhex h2, unhex h3, unhex h4 with
                  | some d1, some d2, some d3, some d4 =>
                      mapCons (d1 * 4096 + d2 * 256 + d3 * 16 + d4) (parseStringBody rest3)
                  | _, _, _, _ => none
              | _ => none
            else none
      else if c < 32 then none
      else mapCons c (parseStringBody rest)

def isDigit (c : Nat) : Bool := 48 ≤ c && c ≤ 57

/-- Integer part of a JSON number: `0` or a nonzero digit run. -/
def parseIntPart : JStr → Option (JStr × JStr)
  | [] => none
  | c :: rest =>
      if c = 48 then some ([48], rest)
      else if 49 ≤ c ∧ c ≤ 57 then some (c :: rest.takeWhile isDigit, rest.dropWhile isDigit)
      else none

/-- Optional fraction part of a JSON number. -/
def parseFracPart : JStr → Option (JStr × JStr)
  | 46 :: rest =>
      if rest.takeWhile isDigit = [] then none
      else some (46 :: rest.takeWhile isDigit, rest.dropWhile isDigit)
  | s => some ([], s)

/-- Optional exponent part of a JSON number. -/
def parseExpPart : JStr → Option (JStr × JStr)
  | [] => some ([], [])
  | c :: rest =>
      if c = 101 ∨ c = 69 then
        match rest with
        | s1 :: r2 =>
            if s1 = 43 ∨ s1 = 45 then
              if r2.takeWhile isDigit = [] then none
              else some (c :: s1 :: r2.takeWhile isDigit, r2.dropWhile isDigit)
            else
              if rest.takeWhile isDigit = [] then none
              else some (c :: rest.takeWhile isDigit, rest.dropWhile isDigit)
        | [] => none
      else some ([], c :: rest)

/-- JSON number token; the lexeme is retained. -/
def parseNumber (s : JStr) : Option (Json × JStr) :=
  match (match s with | 45 :: r => (([45] : JStr), r) | _ => (([] : JStr), s)) with
  | (neg, s1) =>
      match parseIntPart s1 with
      | none => none
      | some (ip, s2) =>
          match parseFracPart s2 with
          | none => none
          | some (fp, s3) =>
              match parseExpPart s3 with
              | none => none
              | some (ep, s4) => some (Json.num (neg ++ ip ++ fp ++ ep), s4)

mutual

/-- JSON value parser (`JSON.parse` body).  The fuel only bounds the
nesting of composite values; every recursive call consumes input, so
`length + 8` fuel (as supplied by `jsonParse`) is always sufficient. -/
def parseValue : Nat → JStr → Option (Json × JStr)
  | 0, _ => none
  | fuel + 1, s =>
      match s with
      | [] => none
      | c :: rest =>
          if c = 34 then
            match parseStringBody rest with
            | some (t, r) => some (Json.str t, r)
            | none => none
          else if c = 123 then
            match skipWs rest with
            | 125 :: r2 => some (Json.obj [], r2)
            | r2 => parseObjMembers fuel r2 []
          else if c = 91 then
            match skipWs rest with
            | 93 :: r2 => some (Json.arr [], r2)
            | r2 => parseArrElems fuel r2 []
          else if c = 116 then
            match s with
            | 116 :: 114 :: 117 :: 101 :: r => some (Json.bool true, r)
            | _ => none
          else if c = 102 then
            match s with
            | 102 :: 97 :: 108 :: 115 :: 101 :: r => some (Json.bool false, r)
            | _ => none
          else if c = 110 then
            match s with
            | 110 :: 117 :: 108 :: 108 :: r => some (Json.null, r)
            | _ => none
          else parseNumber s

/-- Members of a non-empty JSON object (after `{` and leading
whitespace). -/
def parseObjMembers : Nat → JStr → List (JStr × Json) → Option (Json × JStr)
  | 0, _, _ => none
  | fuel + 1, s, acc =>
      match s with
      | 34 :: rest =>
          match parseStringBody rest with
          | none => none
          | some (k, r1) =>
              match skipWs r1 with
              | 58 :: r3 =>
                  match parseValue fuel (skipWs r3) with
                  | none => none
                  | some (v, r4) =>
                      match skipWs r4 with
                      | 44 :: r6 => parseObjMembers fuel (skipWs r6) (acc ++ [(k, v)])
                      | 125 :: r6 => some (Json.obj (acc ++ [(k, v)]), r6)
                      | _ => none
              | _ => none
      | _ => none

/-- Elements of a non-empty JSON array (after `[` and leading
whitespace). -/
def parseArrElems : Nat → JStr → List Json → Option (Json × JStr)
  | 0, _, _ => none
  | fuel + 1, s, acc =>
      match parseValue fuel s with
      | none => none
      | some (v, r) =>
          match skipWs r with
          | 44 :: r2 => parseArrElems fuel (skipWs r2) (acc ++ [v])
          | 93 :: r2 => some (Json.arr (acc ++ [v]), r2)
          | _ => none

end

/-- `JSON.parse`: parse one value surrounded by optional whitespace;
anything else (including trailing input) throws, modelled as `none`. -/
def jsonParse (s : JStr) : Option Json :=
  match parseValue (s.length + 8) (skipWs s) with
  | some (v, rest) => if skipWs rest = [] then some v else none
  | none => none

/-- Last binding of a key in a parsed object (`JSON.parse` applies
duplicate keys in order, the later one overwriting). -/
def lookupLast (fs : List (JStr × Json)) (k : JStr) : Option Json :=
  fs.foldl (fun acc p => if p.1 = k then some p.2 else acc) none

/-- JavaScript property access `j[k]` on a parsed JSON value: reading a
property of `null` throws a `TypeError` (modelled `Except.error`);
non-object values yield `undefined` (modelled `none`). -/
def jsGetMember (j : Json) (k : JStr) : Except Unit (Option Json) :=
  match j with
  | Json.null => Except.error ()
  | Json.obj fs => Except.ok (lookupLast fs k)
  | _ => Except.ok none

theorem unhex_hexDigitL : ∀ d, d < 16 → unhex (hexDigitL d) = some d := by decide

theorem skipWs_cons (c : Nat) (t : JStr) (h : jsonWs c = false) : skipWs (c :: t) = c :: t := by
  simp [skipWs, List.dropWhile_cons, h]

/-- Parsing past one stringify-escaped unit prepends that unit. -/
theorem parseStringBody_escapeUnit (u : Nat) (t : JStr) :
    parseStringBody (escapeUnit u ++ t) = mapCons u (parseStringBody t) := by
  unfold escapeUnit
  split_ifs with h1 h2 h3 h4 h5 h6 h7 h8 h9
  · subst h1; rw [show ([92, 34] ++ t) = 92 :: 34 :: t from rfl, parseStringBody.eq_def]; simp
  · subst h2; rw [show ([92, 92] ++ t) = 92 :: 92 :: t from rfl, parseStringBody.eq_def]; simp
  · subst h3; rw [show ([92, 98] ++ t) = 92 :: 98 :: t from rfl, parseStringBody.eq_def]; simp
  · subst h4; rw [show ([92, 116] ++ t) = 92 :: 116 :: t from rfl, parseStringBody.eq_def]; simp
  · subst h5; rw [show ([92, 110] ++ t) = 92 :: 110 :: t from rfl, parseStringBody.eq_def]; simp
  · subst h6; rw [show ([92, 102] ++ t) = 92 :: 102 :: t from rfl, parseStringBody.eq_def]; simp
  · subst h7; rw [show ([92, 114] ++ t) = 92 :: 114 :: t from rfl, parseStringBody.eq_def]; simp
  · have e1 := unhex_hexDigitL (u / 4096 % 16) (by omega)
    have e2 := unhex_hexDigitL (u / 256 % 16) (by omega)
    have e3 := unhex_hexDigitL (u / 16 % 16) (by omega)
    have e4 := unhex_hexDigitL (u % 16) (by omega)
    have hu : u / 4096 % 16 * 4096 + u / 256 % 16 * 256 + u / 16 % 16 * 16 + u % 16 = u := by
      omega
    rw [show ((92 :: 117 :: hex4 u) ++ t) =
        92 :: 117 :: (hex4 u ++ t) from by simp, hex4,
      show (([hexDigitL (u / 4096 % 16), hexDigitL (u / 256 % 16), hexDigitL (u / 16 % 16),
          hexDigitL (u % 16)] : JStr) ++ t) =
        hexDigitL (u / 4096 % 16) :: hexDigitL (u / 256 % 16) :: hexDigitL (u / 16 % 16) ::
          hexDigitL (u % 16) :: t from rfl,
      parseStringBody.eq_def]
    simp [e1, e2, e3, e4, hu]
  · have e1 := unhex_hexDigitL (u / 4096 % 16) (by omega)
    have e2 := unhex_hexDigitL (u / 256 % 16) (by omega)
    have e3 := unhex_hexDigitL (u / 16 % 16) (by omega)
    have e4 := unhex_hexDigitL (u % 16) (by omega)
    have hu : u / 4096 % 16 * 4096 + u / 256 % 16 * 256 + u / 16 % 16 * 16 + u % 16 = u := by
      omega
    rw [show ((92 :: 117 :: hex4 u) ++ t) =
        92 :: 117 :: (hex4 u ++ t) from by simp, hex4,
      show (([hexDigitL (u / 4096 % 16), hexDigitL (u / 256 % 16), hexDigitL (u / 16 % 16),
          hexDigitL (u % 16)] : JStr) ++ t) =
        hexDigitL (u / 4096 % 16) :: hexDigitL (u / 256 % 16) :: hexDigitL (u / 16 % 16) ::
          hexDigitL (u % 16) :: t from rfl,
      parseStringBody.eq_def]
    simp [e1, e2, e3, e4, hu]
  · rw [show (([u] : JStr) ++ t) = u :: t from rfl, parseStringBody.eq_def]
    simp [h1, h2, h8]

/-- The string-literal parser inverts `JSON.stringify` escaping. -/
theorem parseStringBody_escape (s : JStr) :
    ∀ rest, parseStringBody (escapeUnits s ++ 34 :: rest) = some (s, rest) := by
  induction s using escapeUnits.induct with
  | case1 =>
      intro rest
      rw [show (escapeUnits [] ++ 34 :: rest) = 34 :: rest from rfl, parseStringBody.eq_def]
      simp
  | case2 u =>
      intro rest
      rw [show escapeUnits [u] = escapeUnit u from rfl, parseStringBody_escapeUnit,
        parseStringBody.eq_def]
      simp [mapCons]
  | case3 u v rest2 hpair ih =>
      intro rest
      simp only [escapeUnits, hpair, if_true, List.cons_append]
      simp only [isHighSurrogate, isLowSurrogate, Bool.and_eq_true, decide_eq_true_eq] at hpair
      have hu1 : ¬u = 34 := by omega
      have hu2 : ¬u = 92 := by omega
      have hu3 : ¬u < 32 := by omega
      have hv1 : ¬v = 34 := by omega
      have hv2 : ¬v = 92 := by omega
      have hv3 : ¬v < 32 := by omega
      rw [parseStringBody.eq_def]
      simp only [hu1, hu2, hu3, if_false, ite_false, if_neg]
      rw [parseStringBody.eq_def]
      simp [hv1, hv2, hv3, ih rest, mapCons]
  | case4 u v rest2 hpair ih =>
      intro rest
      simp only [escapeUnits, hpair, Bool.false_eq_true, if_false, List.append_assoc]
      rw [parseStringBody_escapeUnit, ih rest]
      simp [mapCons]

/-- The JSON parser on the exact serialization `handleEncodeURL` builds:
four units of fuel beyond any base always suffice. -/
theorem parseValue_stringifyQV (f : Nat) (q v : JStr) :
    parseValue (f + 4) (stringifyQV q v) =
      some (Json.obj [(js "query", Json.str q), (js "variables", Json.str v)], []) := by
  have hshape : stringifyQV q v =
      123 :: 34 :: (escapeUnits (js "query") ++ 34 :: 58 :: 34 ::
        (escapeUnits q ++ 34 :: 44 :: 34 ::
          (escapeUnits (js "variables") ++ 34 :: 58 :: 34 ::
            (escapeUnits v ++ [34, 125])))) := by
    simp [stringifyQV, quoteJson]
  rw [hshape]
  have hk1 := parseStringBody_escape (js "query")
    (58 :: 34 :: (escapeUnits q ++ 34 :: 44 :: 34 ::
      (escapeUnits (js "variables") ++ 34 :: 58 :: 34 :: (escapeUnits v ++ [34, 125]))))
  have hq := parseStringBody_escape q
    (44 :: 34 :: (escapeUnits (js "variables") ++ 34 :: 58 :: 34 :: (escapeUnits v ++ [34, 125])))
  have hk2 := parseStringBody_escape (js "variables")
    (58 :: 34 :: (escapeUnits v ++ [34, 125]))
  have hv : parseStringBody (escapeUnits v ++ 34 :: [125]) = some (v, [125]) :=
    parseStringBody_escape v [125]
  show parseValue (f + 3 + 1) _ = _
  rw [parseValue.eq_def]
  simp only [skipWs_cons 34 _ rfl]
  norm_num
  show parseObjMembers (f + 2 + 1) _ _ = _
  rw [parseObjMembers.eq_def]
  simp only [hk1]
  simp only [skipWs_cons 58 _ rfl, skipWs_cons 34 _ rfl]
  norm_num
  show (match parseValue (f + 1 + 1) _ with
    | none => none
    | some (v2, r4) =>
        match skipWs r4 with
        | 44 :: r6 => parseObjMembers (f + 2) (skipWs r6) _
        | 125 :: r6 => some (Json.obj _, r6)
        | _ => none) = _
  rw [parseValue.eq_def]
  simp only [hq]
  norm_num
  simp only [skipWs_cons 44 _ rfl, skipWs_cons 34 _ rfl]
  show parseObjMembers (f + 1 + 1) _ _ = _
  rw [parseObjMembers.eq_def]
  simp only [hk2]
  simp only [skipWs_cons 58 _ rfl, skipWs_cons 34 _ rfl]
  norm_num
  show (match parseValue (f + 0 + 1) _ with
    | none => none
    | some (v2, r4) =>
        match skipWs r4 with
        | 44 :: r6 => parseObjMembers (f + 1) (skipWs r6) _
        | 125 :: r6 => some (Json.obj _, r6)
        | _ => none) = _
  rw [parseValue.eq_def]
  simp only [hv]
  norm_num
  simp [skipWs_cons 125 _ rfl]

/-- `JSON.parse` inverts `JSON.stringify` on the two-string-field body. -/
theorem jsonParse_stringifyQV (q v : JStr) :
    jsonParse (stringifyQV q v) =
      some (Json.obj [(js "query", Json.str q), (js "variables", Json.str v)]) := by
  unfold jsonParse
  rw [show (stringifyQV q v).length + 8 = ((stringifyQV q v).length + 4) + 4 from by omega]
  have hws : skipWs (stringifyQV q v) = stringifyQV q v := by
    rw [show stringifyQV q v = 123 :: (quoteJson (js "query") ++
      58 :: (quoteJson q ++ 44 :: (quoteJson (js "variables") ++
        58 :: (quoteJson v ++ [125])))) from rfl]
    exact skipWs_cons 123 _ rfl
  rw [hws, parseValue_stringifyQV]
  simp [skipWs]

/-! ## `encodeURIComponent` and `URLSearchParams` -/

/-- Characters `encodeURIComponent` leaves unescaped. -/
def unreservedChar (c : Nat) : Bool :=
  (48 ≤ c && c ≤ 57) || (65 ≤ c && c ≤ 90) || (97 ≤ c && c ≤ 122) ||
  c = 45 || c = 95 || c = 46 || c = 33 || c = 126 || c = 42 || c = 39 || c = 40 || c = 41

/-- Uppercase hex digit (as emitted by `encodeURIComponent`). -/
def hexUpper (n : Nat) : Nat := if n < 10 then 48 + n else 55 + n

/-- Percent-escape of one byte. -/
def pct (b : Nat) : JStr := [37, hexUpper (b / 16), hexUpper (b % 16)]

/-- `encodeURIComponent` over code units: unreserved characters pass
through, everything else is UTF-8 encoded and percent-escaped; a lone
surrogate raises `URIError` (modelled `none`). -/
def encodeURIComponentUnits : JStr → Option JStr
  | [] => some []
  | u :: rest =>
      if unreservedChar u then
        (encodeURIComponentUnits rest).map (fun t => u :: t)
      else if u < 128 then
        (encodeURIComponentUnits rest).map (fun t => pct u ++ t)
      else if u < 2048 then
        (encodeURIComponentUnits rest).map
          (fun t => pct (192 + u / 64) ++ (pct (128 + u % 64) ++ t))
      else if 55296 ≤ u ∧ u < 56320 then
        match rest with
        | l :: rest2 =>
            if 56320 ≤ l ∧ l < 57344 then
              (encodeURIComponentUnits rest2).map
                (fun t =>
                  pct (240 + (65536 + (u - 55296) * 1024 + (l - 56320)) / 262144) ++
                    (pct (128 + (65536 + (u - 55296) * 1024 + (l - 56320)) / 4096 % 64) ++
                      (pct (128 + (65536 + (u - 55296) * 1024 + (l - 56320)) / 64 % 64) ++
                        (pct (128 + (65536 + (u - 55296) * 1024 + (l - 56320)) % 64) ++ t))))
            else none
        | [] => none
      else if 56320 ≤ u ∧ u < 57344 then none
      else
        (encodeURIComponentUnits rest).map
          (fun t => pct (224 + u / 4096) ++ (pct (128 + u / 64 % 64) ++ (pct (128 + u % 64) ++ t)))

/-- `URLSearchParams` value decoding first maps `+` to space. -/
def plusToSpace (s : JStr) : JStr := s.map (fun c => if c = 43 then 32 else c)

/-- UTF-8 bytes of one BMP code point (used for non-`%` query text). -/
def utf8OfUnit (u : Nat) : List Nat :=
  if u < 128 then [u]
  else if u < 2048 then [192 + u / 64, 128 + u % 64]
  else [224 + u / 4096, 128 + u / 64 % 64, 128 + u % 64]

/-- Percent-decoding to bytes: `%XX` with two hex digits becomes one
byte, any other character contributes its UTF-8 bytes. -/
def percentDecodeBytes : JStr → List Nat
  | [] => []
  | 37 :: h1 :: h2 :: rest =>
      match unhex h1, unhex h2 with
      | some a, some b => (a * 16 + b) :: percentDecodeBytes rest
      | _, _ => utf8OfUnit 37 ++ percentDecodeBytes (h1 :: h2 :: rest)
  | u :: rest => utf8OfUnit u ++ percentDecodeBytes rest

/-- UTF-8 decoding DFA: `k` pending continuation bytes, `acc` the
partial code point; invalid sequences give `U+FFFD` (on malformed input
— which the encoder never produces — the resynchronisation point is
approximated). -/
def utf8Run : List Nat → Nat → Nat → List Nat
  | [], 0, _ => []
  | [], _ + 1, _ => [65533]
  | b :: rest, 0, _ =>
      if b < 128 then b :: utf8Run rest 0 0
      else if 192 ≤ b ∧ b < 224 then utf8Run rest 1 (b - 192)
      else if 224 ≤ b ∧ b < 240 then utf8Run rest 2 (b - 224)
      else if 240 ≤ b ∧ b < 248 then utf8Run rest 3 (b - 240)
      else 65533 :: utf8Run rest 0 0
  | b :: rest, k + 1, acc =>
      if 128 ≤ b ∧ b < 192 then
        if k = 0 then (acc * 64 + (b - 128)) :: utf8Run rest 0 0
        else utf8Run rest k (acc * 64 + (b - 128))
      else 65533 :: utf8Run rest 0 0

/-- UTF-8 decoding of a byte list to code points, with `U+FFFD` for
invalid sequences. -/
def utf8DecodeList (bs : List Nat) : List Nat := utf8Run bs 0 0

/-- Code point back to UTF-16 code units. -/
def cpToUnits (cp : Nat) : JStr :=
  if cp < 65536 then [cp]
  else [55296 + (cp - 65536) / 1024, 56320 + (cp - 65536) % 1024]

def cpsToUnits : List Nat → JStr
  | [] => []
  | cp :: rest => cpToUnits cp ++ cpsToUnits rest

/-- `URLSearchParams` decoding of one key or value. -/
def decodeQSPart (p : JStr) : JStr :=
  cpsToUnits (utf8DecodeList (percentDecodeBytes (plusToSpace p)))

/-- `String.prototype.split` with a single-character separator. -/
def splitOnChar (c : Nat) : JStr → List JStr
  | [] => [[]]
  | x :: xs =>
      if x = c then [] :: splitOnChar c xs
      else
        match splitOnChar c xs with
        | h :: t => (x :: h) :: t
        | [] => [[x]]

/-- Split at the first occurrence of a character. -/
def splitFirstChar (c : Nat) : JStr → JStr × Option JStr
  | [] => ([], none)
  | x :: xs =>
      if x = c then ([], some xs)
      else
        match splitFirstChar c xs with
        | (a, b) => (x :: a, b)

/-- One `k=v` piece of a query string as the pair `URLSearchParams`
yields (a piece without `=` gets an empty value). -/
def qsPiecePair (piece : JStr) : JStr × JStr :=
  match splitFirstChar 61 piece with
  | (k, some v) => (decodeQSPart k, decodeQSPart v)
  | (k, none) => (decodeQSPart k, [])

/-- `URLSearchParams` iteration over a query string (without the `?`):
split on `&`, skip empty pieces, split each piece at its first `=`,
percent-decode both sides. -/
def parseQS (qs : JStr) : List (JStr × JStr) :=
  ((splitOnChar 38 qs).filter (fun p => p ≠ [])).map qsPiecePair

/-- `Array.prototype.join("&")`. -/
def joinAmp : List JStr → JStr
  | [] => []
  | [x] => x
  | x :: xs => x ++ 38 :: joinAmp xs

/-- The `k=v` segments of `handleEncodeURL`'s `headerParams`:
a pair is serialized only when both key and value are non-empty
(untrimmed); `none` when `encodeURIComponent` throws. -/
def headerSegs : List (JStr × JStr) → Option (List JStr)
  | [] => some []
  | (k, v) :: rest =>
      if k = [] ∨ v = [] then headerSegs rest
      else
        match encodeURIComponentUnits k, encodeURIComponentUnits v, headerSegs rest with
        | some ek, some ev, some segs => some ((ek ++ 61 :: ev) :: segs)
        | _, _, _ => none

/-- `headerParams` of `handleEncodeURL`: the joined query string. -/
def headerParams (hs : List (JStr × JStr)) : Option JStr :=
  match headerSegs hs with
  | some segs => some (joinAmp segs)
  | none => none

/-- The header pairs that `handleEncodeURL` treats as active
(key and value non-empty, untrimmed). -/
def encodeActivePairs (hs : List (JStr × JStr)) : List (JStr × JStr) :=
  hs.filter (fun p => !p.1.isEmpty && !p.2.isEmpty)

/-- First index of an occurrence of `pat`. -/
def findSub (pat : JStr) : JStr → Option Nat
  | [] => if pat.isEmpty then some 0 else none
  | x :: tail =>
      if pat.isPrefixOf (x :: tail) then some 0
      else (findSub pat tail).map (fun i => i + 1)

/-- Fueled worker for `String.prototype.split` with a string separator. -/
def splitOnStrFuel (pat : JStr) : Nat → JStr → List JStr
  | 0, s => [s]
  | f + 1, s =>
      match findSub pat s with
      | none => [s]
      | some i => s.take i :: splitOnStrFuel pat f (s.drop (i + pat.length))

/-- `String.prototype.split` with a string separator (the fuel is
sufficient for any non-empty separator). -/
def splitOnStr (s pat : JStr) : List JStr := splitOnStrFuel pat (s.length + 1) s

/-- UTF-8 byte sequence of a code-unit string (pairing surrogates),
mirroring the bytes `encodeURIComponentUnits` percent-escapes. -/
def utf16ToUtf8 : JStr → Option (List Nat)
  | [] => some []
  | u :: rest =>
      if u < 2048 then
        (utf16ToUtf8 rest).map (fun bs => utf8OfUnit u ++ bs)
      else if 55296 ≤ u ∧ u < 56320 then
        match rest with
        | l :: rest2 =>
            if 56320 ≤ l ∧ l < 57344 then
              (utf16ToUtf8 rest2).map
                (fun bs =>
                  (240 + (65536 + (u - 55296) * 1024 + (l - 56320)) / 262144) ::
                    ((128 + (65536 + (u - 55296) * 1024 + (l - 56320)) / 4096 % 64) ::
                      ((128 + (65536 + (u - 55296) * 1024 + (l - 56320)) / 64 % 64) ::
                        ((128 + (65536 + (u - 55296) * 1024 + (l - 56320)) % 64) :: bs))))
            else none
        | [] => none
      else if 56320 ≤ u ∧ u < 57344 then none
      else (utf16ToUtf8 rest).map (fun bs => utf8OfUnit u ++ bs)

theorem unhex_hexUpper : ∀ d, d < 16 → unhex (hexUpper d) = some d := by decide

theorem unreservedChar_facts (u : Nat) (h : unreservedChar u = true) :
    u < 128 ∧ u ≠ 37 ∧ u ≠ 38 ∧ u ≠ 61 ∧ u ≠ 43 ∧ u ≠ 63 := by
  simp only [unreservedChar, Bool.or_eq_true, Bool.and_eq_true, decide_eq_true_eq] at h
  omega

theorem pct_avoid (b : Nat) : ∀ c ∈ pct b, c ≠ 38 ∧ c ≠ 61 ∧ c ≠ 43 ∧ c ≠ 63 := by
  intro c hc
  simp only [pct, List.mem_cons, List.not_mem_nil, or_false] at hc
  rcases hc with rfl | rfl | rfl
  · omega
  · unfold hexUpper; split <;> omega
  · unfold hexUpper; split <;> omega

theorem plusToSpace_id (s : JStr) (h : ∀ c ∈ s, c ≠ 43) : plusToSpace s = s := by
  induction s with
  | nil => rfl
  | cons a l ih =>
      have ha := h a (by simp)
      have hl := ih (fun c hc => h c (by simp [hc]))
      simp only [plusToSpace, List.map_cons, if_neg ha] at *
      rw [hl]

/-- Characters of an `encodeURIComponent` result avoid the query-string
metacharacters `&`, `=`, `+`, `?`. -/
theorem enc_chars : ∀ s t, encodeURIComponentUnits s = some t →
    ∀ c ∈ t, c ≠ 38 ∧ c ≠ 61 ∧ c ≠ 43 ∧ c ≠ 63 := by
  intro s
  induction s using encodeURIComponentUnits.induct with
  | case1 =>
      intro t ht c hc
      rw [encodeURIComponentUnits.eq_def] at ht
      simp only [Option.some.injEq] at ht
      subst ht
      simp at hc
  | case2 u rest hu ih =>
      intro t ht c hc
      rw [encodeURIComponentUnits.eq_def] at ht
      simp only [hu, if_true, Option.map_eq_some'] at ht
      obtain ⟨t2, ht2, rfl⟩ := ht
      rcases List.mem_cons.mp hc with rfl | hc2
      · have := unreservedChar_facts c hu
        omega
      · exact ih t2 ht2 c hc2
  | case3 u rest hu h128 ih =>
      intro t ht c hc
      rw [encodeURIComponentUnits.eq_def] at ht
      simp only [hu, Bool.false_eq_true, if_false, h128, if_true, Option.map_eq_some'] at ht
      obtain ⟨t2, ht2, rfl⟩ := ht
      rcases List.mem_append.mp hc with hc1 | hc2
      · exact pct_avoid _ c hc1
      · exact ih t2 ht2 c hc2
  | case4 u rest hu h128 h2048 ih =>
      intro t ht c hc
      rw [encodeURIComponentUnits.eq_def] at ht
      simp only [hu, Bool.false_eq_true, if_false, h128, h2048, if_true,
        Option.map_eq_some'] at ht
      obtain ⟨t2, ht2, rfl⟩ := ht
      rcases List.mem_append.mp hc with hc1 | hc
      · exact pct_avoid _ c hc1
      rcases List.mem_append.mp hc with hc1 | hc2
      · exact pct_avoid _ c hc1
      · exact ih t2 ht2 c hc2
  | case5 u hu h128 h2048 hhi l rest2 hlo ih =>
      intro t ht c hc
      rw [encodeURIComponentUnits.eq_def] at ht
      simp only [hu, Bool.false_eq_true, if_false, h128, h2048, hhi, if_true, hlo,
        Option.map_eq_some'] at ht
      obtain ⟨t2, ht2, rfl⟩ : ∃ t2, encodeURIComponentUnits rest2 = some t2 ∧
          pct (240 + (65536 + (u - 55296) * 1024 + (l - 56320)) / 262144) ++
            (pct (128 + (65536 + (u - 55296) * 1024 + (l - 56320)) / 4096 % 64) ++
              (pct (128 + (65536 + (u - 55296) * 1024 + (l - 56320)) / 64 % 64) ++
                (pct (128 + (65536 + (u - 55296) * 1024 + (l - 56320)) % 64) ++ t2))) = t := by
        cases hr : encodeURIComponentUnits rest2 with
        | none => rw [hr] at ht; simp at ht
        | some t2 => rw [hr] at ht; simp at ht; exact ⟨t2, rfl, ht⟩
      rcases List.mem_append.mp hc with hc1 | hc
      · exact pct_avoid _ c hc1
      rcases List.mem_append.mp hc with hc1 | hc
      · exact pct_avoid _ c hc1
      rcases List.mem_append.mp hc with hc1 | hc
      · exact pct_avoid _ c hc1
      rcases List.mem_append.mp hc with hc1 | hc2
      · exact pct_avoid _ c hc1
      · exact ih t2 ht2 c hc2
  | case6 u hu h128 h2048 hhi l rest2 hlo =>
      intro t ht
      rw [encodeURIComponentUnits.eq_def] at ht
      simp [hu, h128, h2048, hhi, hlo] at ht
  | case7 u hu h128 h2048 hhi =>
      intro t ht
      rw [encodeURIComponentUnits.eq_def] at ht
      simp [hu, h128, h2048, hhi] at ht
  | case8 u rest hu h128 h2048 hhi hlo =>
      intro t ht
      rw [encodeURIComponentUnits.eq_def] at ht
      simp [hu, h128, h2048, hhi, hlo] at ht
  | case9 u rest hu h128 h2048 hhi hlo ih =>
      intro t ht c hc
      rw [encodeURIComponentUnits.eq_def] at ht
      simp only [hu, Bool.false_eq_true, if_false, h128, h2048, hhi, hlo,
        Option.map_eq_some'] at ht
      obtain ⟨t2, ht2, rfl⟩ := ht
      rcases List.mem_append.mp hc with hc1 | hc
      · exact pct_avoid _ c hc1
      rcases List.mem_append.mp hc with hc1 | hc
      · exact pct_avoid _ c hc1
      rcases List.mem_append.mp hc with hc1 | hc2
      · exact pct_avoid _ c hc1
      · exact ih t2 ht2 c hc2

theorem percentDecodeBytes_pct (b : Nat) (hb : b < 256) (X : JStr) :
    percentDecodeBytes (pct b ++ X) = b :: percentDecodeBytes X := by
  have e1 := unhex_hexUpper (b / 16) (by omega)
  have e2 := unhex_hexUpper (b % 16) (by omega)
  have hb2 : b / 16 * 16 + b % 16 = b := by omega
  rw [show (pct b ++ X) = 37 :: hexUpper (b / 16) :: hexUpper (b % 16) :: X from rfl]
  rw [percentDecodeBytes.eq_def]
  simp [e1, e2, hb2]

theorem percentDecodeBytes_lit (u : Nat) (h1 : u < 128) (h2 : u ≠ 37) (X : JStr) :
    percentDecodeBytes (u :: X) = u :: percentDecodeBytes X := by
  rw [percentDecodeBytes.eq_def]
  split
  next heq => exact absurd heq (by simp)
  next hx1 hx2 hrest heq => exact absurd (List.cons.inj heq).1 h2
  next u2 rest2 heq =>
      obtain ⟨rfl, rfl⟩ := List.cons.inj heq
      simp [utf8OfUnit, h1]

/-- Percent-decoding an `encodeURIComponent` result recovers the UTF-8
bytes of the original string. -/
theorem percentDecodeBytes_enc : ∀ s t, (∀ u ∈ s, u < 65536) →
    encodeURIComponentUnits s = some t →
    ∃ bs, utf16ToUtf8 s = some bs ∧
      ∀ X, percentDecodeBytes (t ++ X) = bs ++ percentDecodeBytes X := by
  intro s
  induction s using encodeURIComponentUnits.induct with
  | case1 =>
      intro t hval ht
      rw [encodeURIComponentUnits.eq_def] at ht
      simp only [Option.some.injEq] at ht
      subst ht
      exact ⟨[], rfl, fun X => by simp⟩
  | case2 u rest hu ih =>
      intro t hval ht
      rw [encodeURIComponentUnits.eq_def] at ht
      simp only [hu, if_true, Option.map_eq_some'] at ht
      obtain ⟨t2, ht2, rfl⟩ := ht
      obtain ⟨bs2, hbs2, hpdb⟩ := ih t2 (fun u hu2 => hval u (by simp [hu2])) ht2
      obtain ⟨h128, h37, -⟩ := unreservedChar_facts u hu
      refine ⟨utf8OfUnit u ++ bs2, ?_, ?_⟩
      · rw [utf16ToUtf8.eq_def]
        simp [show u < 2048 from by omega, hbs2]
      · intro X
        rw [List.cons_append, percentDecodeBytes_lit u h128 h37, hpdb X]
        simp [utf8OfUnit, h128]
  | case3 u rest hu h128 ih =>
      intro t hval ht
      rw [encodeURIComponentUnits.eq_def] at ht
      simp only [hu, Bool.false_eq_true, if_false, h128, if_true, Option.map_eq_some'] at ht
      obtain ⟨t2, ht2, rfl⟩ := ht
      obtain ⟨bs2, hbs2, hpdb⟩ := ih t2 (fun u hu2 => hval u (by simp [hu2])) ht2
      refine ⟨utf8OfUnit u ++ bs2, ?_, ?_⟩
      · rw [utf16ToUtf8.eq_def]
        simp [show u < 2048 from by omega, hbs2]
      · intro X
        rw [List.append_assoc, percentDecodeBytes_pct u (by omega), hpdb X]
        simp [utf8OfUnit, h128]
  | case4 u rest hu h128 h2048 ih =>
      intro t hval ht
      rw [encodeURIComponentUnits.eq_def] at ht
      simp only [hu, Bool.false_eq_true, if_false, h128, h2048, if_true,
        Option.map_eq_some'] at ht
      obtain ⟨t2, ht2, rfl⟩ := ht
      obtain ⟨bs2, hbs2, hpdb⟩ := ih t2 (fun u hu2 => hval u (by simp [hu2])) ht2
      refine ⟨utf8OfUnit u ++ bs2, ?_, ?_⟩
      · rw [utf16ToUtf8.eq_def]
        simp [h2048, hbs2]
      · intro X
        rw [List.append_assoc, percentDecodeBytes_pct (192 + u / 64) (by omega),
          List.append_assoc, percentDecodeBytes_pct (128 + u % 64) (by omega), hpdb X]
        simp [utf8OfUnit, show ¬u < 128 from h128, h2048]
  | case5 u hu h128 h2048 hhi l rest2 hlo ih =>
      intro t hval ht
      rw [encodeURIComponentUnits.eq_def] at ht
      simp only [hu, Bool.false_eq_true, if_false, h128, h2048, hhi, if_true, hlo,
        Option.map_eq_some'] at ht
      obtain ⟨t2, ht2, rfl⟩ : ∃ t2, encodeURIComponentUnits rest2 = some t2 ∧
          pct (240 + (65536 + (u - 55296) * 1024 + (l - 56320)) / 262144) ++
            (pct (128 + (65536 + (u - 55296) * 1024 + (l - 56320)) / 4096 % 64) ++
              (pct (128 + (65536 + (u - 55296) * 1024 + (l - 56320)) / 64 % 64) ++
                (pct (128 + (65536 + (u - 55296) * 1024 + (l - 56320)) % 64) ++ t2))) = t := by
        cases hr : encodeURIComponentUnits rest2 with
        | none => rw [hr] at ht; simp at ht
        | some t2 => rw [hr] at ht; simp at ht; exact ⟨t2, rfl, ht⟩
      obtain ⟨bs2, hbs2, hpdb⟩ := ih t2 (fun u hu2 => hval u (by simp [hu2])) ht2
      refine ⟨(240 + (65536 + (u - 55296) * 1024 + (l - 56320)) / 262144) ::
          ((128 + (65536 + (u - 55296) * 1024 + (l - 56320)) / 4096 % 64) ::
            ((128 + (65536 + (u - 55296) * 1024 + (l - 56320)) / 64 % 64) ::
              ((128 + (65536 + (u - 55296) * 1024 + (l - 56320)) % 64) :: bs2))), ?_, ?_⟩
      · rw [utf16ToUtf8.eq_def]
        simp [h2048, hhi, hlo, hbs2]
      · intro X
        rw [List.append_assoc, percentDecodeBytes_pct _ (by omega),
          List.append_assoc, percentDecodeBytes_pct _ (by omega),
          List.append_assoc, percentDecodeBytes_pct _ (by omega),
          List.append_assoc, percentDecodeBytes_pct _ (by omega), hpdb X]
        simp
  | case6 u hu h128 h2048 hhi l rest2 hlo =>
      intro t hval ht
      rw [encodeURIComponentUnits.eq_def] at ht
      simp [hu, h128, h2048, hhi, hlo] at ht
  | case7 u hu h128 h2048 hhi =>
      intro t hval ht
      rw [encodeURIComponentUnits.eq_def] at ht
      simp [hu, h128, h2048, hhi] at ht
  | case8 u rest hu h128 h2048 hhi hlo =>
      intro t hval ht
      rw [encodeURIComponentUnits.eq_def] at ht
      simp [hu, h128, h2048, hhi, hlo] at ht
  | case9 u rest hu h128 h2048 hhi hlo ih =>
      intro t hval ht
      rw [encodeURIComponentUnits.eq_def] at ht
      simp only [hu, Bool.false_eq_true, if_false, h128, h2048, hhi, hlo,
        Option.map_eq_some'] at ht
      obtain ⟨t2, ht2, rfl⟩ := ht
      obtain ⟨bs2, hbs2, hpdb⟩ := ih t2 (fun u hu2 => hval u (by simp [hu2])) ht2
      refine ⟨utf8OfUnit u ++ bs2, ?_, ?_⟩
      · rw [utf16ToUtf8.eq_def]
        simp [h2048, hhi, hlo, hbs2]
      · intro X
        rw [List.append_assoc, percentDecodeBytes_pct (224 + u / 4096)
            (by have := hval u (by simp); omega),
          List.append_assoc, percentDecodeBytes_pct (128 + u / 64 % 64) (by omega),
          List.append_assoc, percentDecodeBytes_pct (128 + u % 64) (by omega), hpdb X]
        simp [utf8OfUnit, show ¬u < 128 from h128, show ¬u < 2048 from h2048]

theorem utf8Run_lead1 (b : Nat) (z : List Nat) (hb : b < 128) :
    utf8Run (b :: z) 0 0 = b :: utf8Run z 0 0 := by
  rw [utf8Run.eq_def]
  simp [hb]

theorem utf8Run_lead2 (b : Nat) (z : List Nat) (hb : 192 ≤ b ∧ b < 224) :
    utf8Run (b :: z) 0 0 = utf8Run z 1 (b - 192) := by
  rw [utf8Run.eq_def]
  simp [show ¬b < 128 from by omega, hb]

theorem utf8Run_lead3 (b : Nat) (z : List Nat) (hb : 224 ≤ b ∧ b < 240) :
    utf8Run (b :: z) 0 0 = utf8Run z 2 (b - 224) := by
  rw [utf8Run.eq_def]
  simp [show ¬b < 128 from by omega, show ¬(192 ≤ b ∧ b < 224) from by omega, hb]

theorem utf8Run_lead4 (b : Nat) (z : List Nat) (hb : 240 ≤ b ∧ b < 248) :
    utf8Run (b :: z) 0 0 = utf8Run z 3 (b - 240) := by
  rw [utf8Run.eq_def]
  simp [show ¬b < 128 from by omega, show ¬(192 ≤ b ∧ b < 224) from by omega,
    show ¬(224 ≤ b ∧ b < 240) from by omega, hb]

theorem utf8Run_cont3 (b acc : Nat) (z : List Nat) (hb : 128 ≤ b ∧ b < 192) :
    utf8Run (b :: z) 3 acc = utf8Run z 2 (acc * 64 + (b - 128)) := by
  rw [utf8Run.eq_def]
  simp [hb]

theorem utf8Run_cont2 (b acc : Nat) (z : List Nat) (hb : 128 ≤ b ∧ b < 192) :
    utf8Run (b :: z) 2 acc = utf8Run z 1 (acc * 64 + (b - 128)) := by
  rw [utf8Run.eq_def]
  simp [hb]

theorem utf8Run_last (b acc : Nat) (z : List Nat) (hb : 128 ≤ b ∧ b < 192) :
    utf8Run (b :: z) 1 acc = (acc * 64 + (b - 128)) :: utf8Run z 0 0 := by
  rw [utf8Run.eq_def]
  simp [hb]

/-- UTF-8 decoding inverts `utf16ToUtf8`, compositionally. -/
theorem utf8Run_utf16 : ∀ s bs, (∀ u ∈ s, u < 65536) → utf16ToUtf8 s = some bs →
    ∀ Y, cpsToUnits (utf8Run (bs ++ Y) 0 0) = s ++ cpsToUnits (utf8Run Y 0 0) := by
  intro s
  induction s using utf16ToUtf8.induct with
  | case1 =>
      intro bs hval hbs Y
      rw [utf16ToUtf8.eq_def] at hbs
      simp only [Option.some.injEq] at hbs
      subst hbs
      simp
  | case2 u rest h2048 ih =>
      intro bs hval hbs Y
      rw [utf16ToUtf8.eq_def] at hbs
      simp only [h2048, if_true, Option.map_eq_some'] at hbs
      obtain ⟨bs2, hbs2, rfl⟩ := hbs
      have ihr := ih bs2 (fun x hx => hval x (by simp [hx])) hbs2 Y
      by_cases h128 : u < 128
      · rw [show (utf8OfUnit u ++ bs2) ++ Y = u :: (bs2 ++ Y) from by simp [utf8OfUnit, h128]]
        rw [utf8Run_lead1 u _ h128]
        simp only [cpsToUnits, cpToUnits, show u < 65536 from by omega, if_true, ihr]
        simp
      · rw [show (utf8OfUnit u ++ bs2) ++ Y = (192 + u / 64) :: ((128 + u % 64) :: (bs2 ++ Y))
          from by simp [utf8OfUnit, h128, h2048]]
        rw [utf8Run_lead2 _ _ (by omega), utf8Run_last _ _ _ (by omega)]
        rw [show (192 + u / 64 - 192) * 64 + (128 + u % 64 - 128) = u from by omega]
        simp only [cpsToUnits, cpToUnits, show u < 65536 from by omega, if_true, ihr]
        simp
  | case3 u h2048 hhi l r2 hlo ih =>
      intro bs hval hbs Y
      rw [utf16ToUtf8.eq_def] at hbs
      simp only [h2048, if_false, hhi, if_true, hlo, Option.map_eq_some'] at hbs
      obtain ⟨bs2, hbs2, rfl⟩ : ∃ bs2, utf16ToUtf8 r2 = some bs2 ∧
          (240 + (65536 + (u - 55296) * 1024 + (l - 56320)) / 262144) ::
            ((128 + (65536 + (u - 55296) * 1024 + (l - 56320)) / 4096 % 64) ::
              ((128 + (65536 + (u - 55296) * 1024 + (l - 56320)) / 64 % 64) ::
                ((128 + (65536 + (u - 55296) * 1024 + (l - 56320)) % 64) :: bs2))) = bs := by
        cases hr : utf16ToUtf8 r2 with
        | none => rw [hr] at hbs; simp at hbs
        | some bs2 => rw [hr] at hbs; simp at hbs; exact ⟨bs2, rfl, hbs⟩
      have ihr := ih bs2 (fun x hx => hval x (by simp [hx])) hbs2 Y
      rw [List.cons_append, List.cons_append, List.cons_append, List.cons_append]
      rw [utf8Run_lead4 _ _ (by omega), utf8Run_cont3 _ _ _ (by omega),
        utf8Run_cont2 _ _ _ (by omega), utf8Run_last _ _ _ (by omega)]
      rw [show (((240 + (65536 + (u - 55296) * 1024 + (l - 56320)) / 262144 - 240) * 64 +
            (128 + (65536 + (u - 55296) * 1024 + (l - 56320)) / 4096 % 64 - 128)) * 64 +
            (128 + (65536 + (u - 55296) * 1024 + (l - 56320)) / 64 % 64 - 128)) * 64 +
            (128 + (65536 + (u - 55296) * 1024 + (l - 56320)) % 64 - 128) = (65536 + (u - 55296) * 1024 + (l - 56320)) from by omega]
      simp only [cpsToUnits, ihr]
      rw [show cpToUnits (65536 + (u - 55296) * 1024 + (l - 56320)) = [u, l] from by
        unfold cpToUnits
        rw [if_neg (by omega)]
        have e1 : 55296 + ((65536 + (u - 55296) * 1024 + (l - 56320)) - 65536) / 1024 = u := by omega
        have e2 : 56320 + ((65536 + (u - 55296) * 1024 + (l - 56320)) - 65536) % 1024 = l := by omega
        rw [e1, e2]]
      simp
  | case4 u h2048 hhi l r2 hlo =>
      intro bs hval hbs
      rw [utf16ToUtf8.eq_def] at hbs
      simp [h2048, hhi, hlo] at hbs
  | case5 u h2048 hhi =>
      intro bs hval hbs
      rw [utf16ToUtf8.eq_def] at hbs
      simp [h2048, hhi] at hbs
  | case6 u rest h2048 hhi hlo =>
      intro bs hval hbs
      rw [utf16ToUtf8.eq_def] at hbs
      simp [h2048, hhi, hlo] at hbs
  | case7 u rest h2048 hhi hlo ih =>
      intro bs hval hbs Y
      rw [utf16ToUtf8.eq_def] at hbs
      simp only [h2048, if_false, hhi, hlo, Option.map_eq_some'] at hbs
      obtain ⟨bs2, hbs2, rfl⟩ := hbs
      have ihr := ih bs2 (fun x hx => hval x (by simp [hx])) hbs2 Y
      have hu16 : u < 65536 := hval u (by simp)
      rw [show (utf8OfUnit u ++ bs2) ++ Y =
          (224 + u / 4096) :: ((128 + u / 64 % 64) :: ((128 + u % 64) :: (bs2 ++ Y)))
        from by simp [utf8OfUnit, show ¬u < 128 from by omega, show ¬u < 2048 from h2048]]
      rw [utf8Run_lead3 _ _ (by omega), utf8Run_cont2 _ _ _ (by omega),
        utf8Run_last _ _ _ (by omega)]
      rw [show ((224 + u / 4096 - 224) * 64 + (128 + u / 64 % 64 - 128)) * 64 +
          (128 + u % 64 - 128) = u from by omega]
      simp only [cpsToUnits, cpToUnits, hu16, if_true, ihr]
      simp

/-- `URLSearchParams` decoding is a left inverse of `encodeURIComponent`
on well-formed UTF-16 strings. -/
theorem decodeQSPart_enc (s t : JStr) (hval : ∀ u ∈ s, u < 65536)
    (h : encodeURIComponentUnits s = some t) : decodeQSPart t = s := by
  obtain ⟨bs, hbs, hpdb⟩ := percentDecodeBytes_enc s t hval h
  have h43 : ∀ c ∈ t, c ≠ 43 := fun c hc => (enc_chars s t h c hc).2.2.1
  unfold decodeQSPart
  rw [plusToSpace_id t h43]
  have h1 : percentDecodeBytes t = bs := by
    have h2 := hpdb []
    rw [List.append_nil] at h2
    rw [h2, show percentDecodeBytes [] = [] from rfl, List.append_nil]
  rw [h1]
  have h3 := utf8Run_utf16 s bs hval hbs []
  rw [List.append_nil] at h3
  unfold utf8DecodeList
  rw [h3, show utf8Run [] 0 0 = [] from rfl, show cpsToUnits [] = [] from rfl,
    List.append_nil]

theorem splitOnChar_not_mem (c : Nat) (s : JStr) (h : c ∉ s) : splitOnChar c s = [s] := by
  induction s with
  | nil => rfl
  | cons x xs ih =>
      have hx : ¬x = c := by rintro rfl; exact h (by simp)
      have hxs : c ∉ xs := fun hc => h (by simp [hc])
      rw [splitOnChar.eq_def]
      simp [hx, ih hxs]

theorem splitOnChar_append (c : Nat) (a b : JStr) (h : c ∉ a) :
    splitOnChar c (a ++ c :: b) = a :: splitOnChar c b := by
  induction a with
  | nil =>
      rw [List.nil_append, splitOnChar.eq_def]
      simp
  | cons x xs ih =>
      have hx : ¬x = c := by rintro rfl; exact h (by simp)
      have hxs : c ∉ xs := fun hc => h (by simp [hc])
      rw [List.cons_append, splitOnChar.eq_def]
      simp [hx, ih hxs]

theorem splitFirstChar_not_mem (c : Nat) (s : JStr) (h : c ∉ s) :
    splitFirstChar c s = (s, none) := by
  induction s with
  | nil => rfl
  | cons x xs ih =>
      have hx : ¬x = c := by rintro rfl; exact h (by simp)
      have hxs : c ∉ xs := fun hc => h (by simp [hc])
      rw [splitFirstChar.eq_def]
      simp [hx, ih hxs]

theorem splitFirstChar_append (c : Nat) (a b : JStr) (h : c ∉ a) :
    splitFirstChar c (a ++ c :: b) = (a, some b) := by
  induction a with
  | nil =>
      rw [List.nil_append, splitFirstChar.eq_def]
      simp
  | cons x xs ih =>
      have hx : ¬x = c := by rintro rfl; exact h (by simp)
      have hxs : c ∉ xs := fun hc => h (by simp [hc])
      rw [List.cons_append, splitFirstChar.eq_def]
      simp [hx, ih hxs]

theorem splitOnChar_joinAmp (segs : List JStr) (h : ∀ g ∈ segs, (38 : Nat) ∉ g)
    (hne : segs ≠ []) : splitOnChar 38 (joinAmp segs) = segs := by
  induction segs with
  | nil => exact absurd rfl hne
  | cons g gs ih =>
      cases gs with
      | nil => exact splitOnChar_not_mem 38 g (h g (by simp))
      | cons g2 gs2 =>
          rw [show joinAmp (g :: g2 :: gs2) = g ++ 38 :: joinAmp (g2 :: gs2) from rfl]
          rw [splitOnChar_append 38 g _ (h g (by simp))]
          rw [ih (fun x hx => h x (by simp [hx])) (by simp)]

/-- The `k=v` piece built for an active header pair decodes back to the
pair. -/
theorem qsPiecePair_seg (k v ek ev : JStr)
    (hk : ∀ u ∈ k, u < 65536) (hv : ∀ u ∈ v, u < 65536)
    (hek : encodeURIComponentUnits k = some ek) (hev : encodeURIComponentUnits v = some ev) :
    qsPiecePair (ek ++ 61 :: ev) = (k, v) := by
  have h61 : (61 : Nat) ∉ ek := fun hc => (enc_chars k ek hek 61 hc).2.1 rfl
  unfold qsPiecePair
  rw [splitFirstChar_append 61 ek ev h61]
  show (decodeQSPart ek, decodeQSPart ev) = (k, v)
  rw [decodeQSPart_enc k ek hk hek, decodeQSPart_enc v ev hv hev]

/-- Characterisation of `headerSegs`: the segments decode to exactly the
active pairs, and none is empty or contains `&`. -/
theorem headerSegs_spec : ∀ hs segs,
    (∀ p ∈ hs, (∀ u ∈ (p : JStr × JStr).1, u < 65536) ∧ (∀ u ∈ p.2, u < 65536)) →
    headerSegs hs = some segs →
    segs.map qsPiecePair = encodeActivePairs hs ∧ ∀ g ∈ segs, g ≠ [] ∧ (38 : Nat) ∉ g := by
  intro hs
  induction hs with
  | nil =>
      intro segs hval hsegs
      rw [show headerSegs [] = some [] from rfl] at hsegs
      simp only [Option.some.injEq] at hsegs
      subst hsegs
      constructor
      · rfl
      · intro g hg; simp at hg
  | cons p rest ih =>
      intro segs hval hsegs
      obtain ⟨k, v⟩ := p
      replace hsegs : (if k = [] ∨ v = [] then headerSegs rest
          else match encodeURIComponentUnits k, encodeURIComponentUnits v, headerSegs rest with
            | some ek, some ev, some segs2 => some ((ek ++ 61 :: ev) :: segs2)
            | _, _, _ => none) = some segs := hsegs
      by_cases hkv : k = [] ∨ v = []
      · rw [if_pos hkv] at hsegs
        obtain ⟨hmap, hgs⟩ := ih segs (fun q hq => hval q (by simp [hq])) hsegs
        refine ⟨?_, hgs⟩
        rw [hmap]
        unfold encodeActivePairs
        rw [List.filter_cons_of_neg]
        simp only [Bool.and_eq_true, Bool.not_eq_true', List.isEmpty_eq_true]
        rcases hkv with rfl | rfl <;> simp
      · rw [if_neg hkv] at hsegs
        cases hek : encodeURIComponentUnits k with
        | none => rw [hek] at hsegs; simp at hsegs
        | some ek =>
        cases hev : encodeURIComponentUnits v with
        | none => rw [hek, hev] at hsegs; simp at hsegs
        | some ev =>
        cases hrest : headerSegs rest with
        | none => rw [hek, hev, hrest] at hsegs; simp at hsegs
        | some segs2 =>
        rw [hek, hev, hrest] at hsegs
        simp only [Option.some.injEq] at hsegs
        subst hsegs
        obtain ⟨hmap, hgs⟩ := ih segs2 (fun q hq => hval q (by simp [hq])) hrest
        have hkval := hval (k, v) (by simp)
        constructor
        · rw [List.map_cons, hmap,
            qsPiecePair_seg k v ek ev hkval.1 hkval.2 hek hev]
          unfold encodeActivePairs
          rw [List.filter_cons_of_pos]
          simp only [Bool.and_eq_true, Bool.not_eq_true', List.isEmpty_eq_false, ne_eq]
          constructor
          · exact fun h2 => hkv (Or.inl h2)
          · exact fun h2 => hkv (Or.inr h2)
        · intro g hg
          rcases List.mem_cons.mp hg with rfl | hg2
          · constructor
            · simp
            · intro hmem
              rcases List.mem_append.mp hmem with hmem | hmem
              · exact (enc_chars k ek hek 38 hmem).1 rfl
              · rcases List.mem_cons.mp hmem with heq | hmem
                · omega
                · exact (enc_chars v ev hev 38 hmem).1 rfl
          · exact hgs g hg2

/-- `URLSearchParams` iteration over the `headerParams` query string
yields exactly the active header pairs, in order. -/
theorem parseQS_headerParams (hs : List (JStr × JStr)) (qs : JStr)
    (hval : ∀ p ∈ hs, (∀ u ∈ (p : JStr × JStr).1, u < 65536) ∧ (∀ u ∈ p.2, u < 65536))
    (h : headerParams hs = some qs) : parseQS qs = encodeActivePairs hs := by
  unfold headerParams at h
  cases hsegs : headerSegs hs with
  | none => rw [hsegs] at h; simp at h
  | some segs =>
      rw [hsegs] at h
      simp only [Option.some.injEq] at h
      subst h
      obtain ⟨hmap, hgs⟩ := headerSegs_spec hs segs hval hsegs
      unfold parseQS
      cases segs with
      | nil =>
          rw [← hmap]
          rfl
      | cons g gs =>
          rw [splitOnChar_joinAmp (g :: gs) (fun x hx => (hgs x hx).2) (by simp)]
          rw [List.filter_eq_self.mpr (by
            intro x hx
            simp only [decide_eq_true_eq]
            exact (hgs x hx).1)]
          exact hmap

/-! ## The GraphiQL form: encode, decode-on-mount, reconciliation -/

/-- The form fields used by `handleEncodeURL` and `handleFormSubmit`. -/
structure FormState where
  endpoint : JStr
  query : JStr
  variablesValue : JStr
  headers : List (JStr × JStr)

/-- The variables text placed into the encoded body:
`variablesValue || "\x7b\x7d"` — an empty field encodes as the literal
two-character string. -/
def encVars (v : JStr) : JStr := if v = [] then js "\x7b\x7d" else v

/-- `handleEncodeURL`: when both endpoint and query are non-empty, build
`/GRAPHQL/<btoa endpoint>/<btoa body>` with the active headers as a query
string and push it; `none` when the guard fails or a browser primitive
throws. -/
def handleEncodeURL (s : FormState) : Option JStr :=
  if s.endpoint = [] ∨ s.query = [] then none
  else
    match btoa s.endpoint, btoa (stringifyQV s.query (encVars s.variablesValue)),
        headerParams s.headers with
    | some e, some b, some hp =>
        some (js "/GRAPHQL/" ++ (e ++ (47 :: (b ++ (if hp = [] then [] else 63 :: hp)))))
    | _, _, _ => none

/-- `new URL(...).pathname` of a pushed URL (no hash is ever produced). -/
def urlPathname (url : JStr) : JStr := (splitFirstChar 63 url).1

/-- `new URL(...).searchParams` source text of a pushed URL. -/
def urlSearch (url : JStr) : JStr := ((splitFirstChar 63 url).2).getD []

/-- One step of the `searchParams.forEach` handler: look the incoming
key up in the mount-render `headersValue` snapshot; update that index in
place, or append. -/
def reconcileStep (snapshot cur : List (JStr × JStr)) (p : JStr × JStr) :
    List (JStr × JStr) :=
  match snapshot.findIdx? (fun h => decide (h.1 = p.1)) with
  | some i => cur.set i p
  | none => cur ++ [p]

/-- The `searchParams.forEach` reconciliation over all incoming pairs
(`headersValue` is the fixed mount-render snapshot; react-hook-form's
`append`/`update` rebuild the array, so the captured reference does not
change during the loop). -/
def reconcile (snapshot : List (JStr × JStr)) (ps : List (JStr × JStr)) :
    List (JStr × JStr) :=
  ps.foldl (reconcileStep snapshot) snapshot

/-- Result of the mount-time decode effect: which `setValue` calls ran
(`none` = never called; `some none` = called with `undefined`), the final
header list, and whether the effect threw an uncaught exception. -/
structure MountResult where
  threw : Bool
  endpointSet : Option JStr
  querySet : Option (Option Json)
  variablesSet : Option (Option Json)
  headers : List (JStr × JStr)

/-- The decode effect after splitting the path: decode the two segments
(`atob` of a missing segment coerces `undefined` to the string
`"undefined"`), `JSON.parse` the body, set the three fields (reading
`.query` of a non-object primitive throws after the endpoint is already
set), then reconcile the headers. -/
def decodeMountSegs (seg : List JStr) (search : JStr) (hs : List (JStr × JStr)) :
    MountResult :=
  match atob (seg.getD 0 (js "undefined")) with
  | none => ⟨true, none, none, none, hs⟩
  | some de =>
      match atob (seg.getD 1 (js "undefined")) with
      | none => ⟨true, none, none, none, hs⟩
      | some db =>
          match jsonParse db with
          | none => ⟨true, none, none, none, hs⟩
          | some body =>
              match jsGetMember body (js "query") with
              | Except.error _ => ⟨true, some de, none, none, hs⟩
              | Except.ok q =>
                  match jsGetMember body (js "variables") with
                  | Except.error _ => ⟨true, some de, some q, none, hs⟩
                  | Except.ok v =>
                      ⟨false, some de, some q, some v, reconcile hs (parseQS search)⟩

/-- The mount-time decode effect of `GraphiForm`: split the pathname on
`"/GRAPHQL/"`; when that yields exactly two parts, decode the second. -/
def decodeMount (pathname search : JStr) (hs : List (JStr × JStr)) : MountResult :=
  if (splitOnStr pathname (js "/GRAPHQL/")).length = 2 then
    decodeMountSegs (splitOnChar 47 ((splitOnStr pathname (js "/GRAPHQL/")).getD 1 []))
      search hs
  else ⟨false, none, none, none, hs⟩

theorem findSub_self_head (pat t : JStr) (hne : pat ≠ []) : findSub pat (pat ++ t) = some 0 := by
  cases pat with
  | nil => exact absurd rfl hne
  | cons p pr =>
      rw [List.cons_append, findSub.eq_def]
      show (if (p :: pr).isPrefixOf (p :: (pr ++ t)) = true then some 0
        else (findSub (p :: pr) (pr ++ t)).map (fun i => i + 1)) = some 0
      have hpre : (p :: pr).isPrefixOf (p :: (pr ++ t)) = true :=
        List.isPrefixOf_iff_prefix.mpr ⟨t, rfl⟩
      rw [if_pos hpre]

theorem findSub_some (pat : JStr) : ∀ s i, findSub pat s = some i → ∃ y, s = s.take i ++ pat ++ y := by
  intro s
  induction s with
  | nil =>
      intro i h
      rw [findSub.eq_def] at h
      replace h : (if pat.isEmpty = true then some 0 else none) = some i := h
      by_cases hp : pat.isEmpty
      · rw [if_pos hp] at h
        simp only [Option.some.injEq] at h
        subst h
        exact ⟨[], by simp [List.isEmpty_iff.mp hp]⟩
      · rw [if_neg hp] at h
        exact absurd h (by simp)
  | cons x tail ih =>
      intro i h
      rw [findSub.eq_def] at h
      replace h : (if pat.isPrefixOf (x :: tail) = true then some 0
          else (findSub pat tail).map (fun j => j + 1)) = some i := h
      by_cases hp : pat.isPrefixOf (x :: tail)
      · rw [if_pos hp] at h
        simp only [Option.some.injEq] at h
        subst h
        obtain ⟨y, hy⟩ := List.isPrefixOf_iff_prefix.mp hp
        exact ⟨y, by simp [← hy]⟩
      · rw [if_neg hp] at h
        simp only [Option.map_eq_some'] at h
        obtain ⟨j, hj, rfl⟩ := h
        obtain ⟨y, hy⟩ := ih j hj
        refine ⟨y, ?_⟩
        rw [List.take_succ_cons]
        conv_lhs => rw [hy]
        simp

theorem findSub_eq_none (pat s : JStr) (hcount : s.count 47 < pat.count 47) :
    findSub pat s = none := by
  cases hf : findSub pat s with
  | none => rfl
  | some i =>
      obtain ⟨y, hy⟩ := findSub_some pat s i hf
      rw [hy, List.count_append, List.count_append] at hcount
      omega

theorem splitOnStrFuel_succ (pat : JStr) (f : Nat) (s : JStr) :
    splitOnStrFuel pat (f + 1) s =
      match findSub pat s with
      | none => [s]
      | some i => s.take i :: splitOnStrFuel pat f (s.drop (i + pat.length)) := rfl

/-- Splitting the produced pathname on `"/GRAPHQL/"` yields exactly the
empty prefix and the two encoded segments, when neither segment contains
a slash. -/
theorem splitOnStr_graphql (e b : JStr) (he : (47 : Nat) ∉ e) (hb : (47 : Nat) ∉ b) :
    splitOnStr (js "/GRAPHQL/" ++ (e ++ 47 :: b)) (js "/GRAPHQL/") =
      [[], e ++ 47 :: b] := by
  unfold splitOnStr
  rw [show (js "/GRAPHQL/" ++ (e ++ 47 :: b)).length + 1 =
    ((e ++ 47 :: b).length + 9) + 1 from by simp [js]]
  rw [splitOnStrFuel_succ]
  rw [findSub_self_head (js "/GRAPHQL/") (e ++ 47 :: b) (by decide)]
  simp only [List.take_zero]
  rw [show (0 : Nat) + (js "/GRAPHQL/").length = 9 from by decide]
  rw [show (js "/GRAPHQL/" ++ (e ++ 47 :: b)).drop 9 = e ++ 47 :: b from by
    rw [show (9 : Nat) = (js "/GRAPHQL/").length from by decide]
    exact List.drop_left _ _]
  rw [show (e ++ 47 :: b).length + 9 = ((e ++ 47 :: b).length + 8) + 1 from by omega]
  rw [splitOnStrFuel_succ]
  rw [findSub_eq_none (js "/GRAPHQL/") (e ++ 47 :: b) (by
    rw [List.count_append]
    rw [List.count_eq_zero.mpr he]
    rw [show ((47 :: b : JStr).count 47) = b.count 47 + 1 from by
      rw [List.count_cons]
      simp]
    rw [List.count_eq_zero.mpr hb]
    decide)]

theorem btoaBytes_ne_63 (bs : JStr) (h : ∀ x ∈ bs, x < 256) :
    ∀ c ∈ btoaBytes bs, c ≠ 63 := by
  intro c hc
  rw [btoaBytes_eq_core_pad] at hc
  rcases List.mem_append.mp hc with hc | hc
  · obtain ⟨n, hn, rfl⟩ := b64Core_mem bs h c hc
    exact b64Char_ne_63 n hn
  · rcases b64Pad_cases bs with hp | hp | hp <;> rw [hp] at hc <;> simp at hc <;> omega

theorem btoaBytes_ne_47 (bs : JStr) (hns : (47 : Nat) ∉ btoaBytes bs) :
    ∀ c ∈ btoaBytes bs, c ≠ 47 := fun c hc h47 => hns (h47 ▸ hc)

/-- Fold of `reconcileStep` when no incoming key matches the snapshot:
pure appending. -/
theorem reconcile_foldl_append (snap : List (JStr × JStr)) :
    ∀ (ps : List (JStr × JStr)) (cur : List (JStr × JStr)),
    (∀ p ∈ ps, snap.findIdx? (fun h => decide (h.1 = p.1)) = none) →
    ps.foldl (reconcileStep snap) cur = cur ++ ps := by
  intro ps
  induction ps with
  | nil => intro cur h; simp
  | cons p ps2 ih =>
      intro cur h
      rw [List.foldl_cons]
      rw [show reconcileStep snap cur p = cur ++ [p] from by
        unfold reconcileStep
        rw [h p (by simp)]]
      rw [ih (cur ++ [p]) (fun q hq => h q (by simp [hq]))]
      simp

theorem findIdx_empty_key (p : JStr × JStr) (hp : p.1 ≠ []) :
    ([(([] : JStr), ([] : JStr))].findIdx? (fun h => decide (h.1 = p.1))) = none := by
  rw [List.findIdx?_cons]
  simp [Ne.symm hp]

/-- Reconciling the incoming pairs into the default one-empty-row list
appends them all (the empty default key never matches an active key). -/
theorem reconcile_default (ps : List (JStr × JStr)) (h : ∀ p ∈ ps, p.1 ≠ []) :
    reconcile [(([] : JStr), ([] : JStr))] ps = (([] : JStr), ([] : JStr)) :: ps := by
  unfold reconcile
  rw [reconcile_foldl_append _ ps _ (fun p hp => findIdx_empty_key p (h p hp))]
  rfl

theorem joinAmp_mem : ∀ (segs : List JStr) (c : Nat), c ∈ joinAmp segs →
    c = 38 ∨ ∃ g ∈ segs, c ∈ g := by
  intro segs
  induction segs with
  | nil => intro c hc; simp [joinAmp] at hc
  | cons g gs ih =>
      intro c hc
      cases gs with
      | nil => exact Or.inr ⟨g, by simp, hc⟩
      | cons g2 gs2 =>
          rw [show joinAmp (g :: g2 :: gs2) = g ++ 38 :: joinAmp (g2 :: gs2) from rfl] at hc
          rcases List.mem_append.mp hc with hc | hc
          · exact Or.inr ⟨g, by simp, hc⟩
          · rcases List.mem_cons.mp hc with rfl | hc
            · exact Or.inl rfl
            · rcases ih c hc with h | ⟨g3, hg3, hcg⟩
              · exact Or.inl h
              · exact Or.inr ⟨g3, List.mem_cons_of_mem g hg3, hcg⟩

theorem joinAmp_eq_nil (segs : List JStr) (h : ∀ g ∈ segs, g ≠ [])
    (hj : joinAmp segs = []) : segs = [] := by
  cases segs with
  | nil => rfl
  | cons g gs =>
      cases gs with
      | nil => exact absurd hj (h g (by simp))
      | cons g2 gs2 =>
          rw [show joinAmp (g :: g2 :: gs2) = g ++ 38 :: joinAmp (g2 :: gs2) from rfl] at hj
          cases g with
          | nil => simp at hj
          | cons x xs => simp at hj

theorem headerSegs_ne_63 : ∀ hs segs, headerSegs hs = some segs →
    ∀ g ∈ segs, ∀ c ∈ g, c ≠ 63 := by
  intro hs
  induction hs with
  | nil =>
      intro segs h
      rw [show headerSegs [] = some [] from rfl] at h
      simp only [Option.some.injEq] at h
      subst h
      intro g hg; simp at hg
  | cons p rest ih =>
      intro segs h
      obtain ⟨k, v⟩ := p
      replace h : (if k = [] ∨ v = [] then headerSegs rest
          else match encodeURIComponentUnits k, encodeURIComponentUnits v, headerSegs rest with
            | some ek, some ev, some segs2 => some ((ek ++ 61 :: ev) :: segs2)
            | _, _, _ => none) = some segs := h
      by_cases hkv : k = [] ∨ v = []
      · rw [if_pos hkv] at h; exact ih segs h
      · rw [if_neg hkv] at h
        cases hek : encodeURIComponentUnits k with
        | none => rw [hek] at h; simp at h
        | some ek =>
        cases hev : encodeURIComponentUnits v with
        | none => rw [hek, hev] at h; simp at h
        | some ev =>
        cases hrest : headerSegs rest with
        | none => rw [hek, hev, hrest] at h; simp at h
        | some segs2 =>
        rw [hek, hev, hrest] at h
        simp only [Option.some.injEq] at h
        subst h
        intro g hg c hc
        rcases List.mem_cons.mp hg with rfl | hg2
        · rcases List.mem_append.mp hc with hm | hm
          · exact (enc_chars k ek hek c hm).2.2.2
          · rcases List.mem_cons.mp hm with rfl | hm
            · omega
            · exact (enc_chars v ev hev c hm).2.2.2
        · exact ih segs2 hrest g hg2 c hc

/-- The built query string never contains a `?`. -/
theorem headerParams_ne_63 (hs : List (JStr × JStr)) (hp : JStr)
    (h : headerParams hs = some hp) : (63 : Nat) ∉ hp := by
  intro hc
  unfold headerParams at h
  cases hsegs : headerSegs hs with
  | none => rw [hsegs] at h; simp at h
  | some segs =>
      rw [hsegs] at h
      simp only [Option.some.injEq] at h
      subst h
      rcases joinAmp_mem segs 63 hc with h38 | ⟨g, hg, hcg⟩
      · omega
      · exact headerSegs_ne_63 hs segs hsegs g hg 63 hcg rfl

theorem lookupLast_two_first (k1 k2 : JStr) (j1 j2 : Json) (hne : k2 ≠ k1) :
    lookupLast [(k1, j1), (k2, j2)] k1 = some j1 := by
  simp [lookupLast, hne]

theorem lookupLast_two_second (k1 k2 : JStr) (j1 j2 : Json) :
    lookupLast [(k1, j1), (k2, j2)] k2 = some j2 := by
  simp [lookupLast]

/-- Decoding a pathname of the exact shape produced by `handleEncodeURL`
succeeds and sets all three fields, provided neither base64 segment
contains a slash. -/
theorem decodeMount_enc (ep q v search : JStr) (hs : List (JStr × JStr))
    (hend8 : ∀ u ∈ ep, u < 256) (hbody8 : ∀ u ∈ stringifyQV q v, u < 256)
    (he47 : (47 : Nat) ∉ btoaBytes ep)
    (hb47 : (47 : Nat) ∉ btoaBytes (stringifyQV q v)) :
    decodeMount (js "/GRAPHQL/" ++ (btoaBytes ep ++ 47 :: btoaBytes (stringifyQV q v)))
        search hs =
      ⟨false, some ep, some (some (Json.str q)), some (some (Json.str v)),
        reconcile hs (parseQS search)⟩ := by
  unfold decodeMount
  rw [splitOnStr_graphql _ _ he47 hb47]
  rw [if_pos (show ([[], btoaBytes ep ++ 47 :: btoaBytes (stringifyQV q v)] :
    List JStr).length = 2 from rfl)]
  rw [show ([[], btoaBytes ep ++ 47 :: btoaBytes (stringifyQV q v)] : List JStr).getD 1 [] =
    btoaBytes ep ++ 47 :: btoaBytes (stringifyQV q v) from rfl]
  rw [splitOnChar_append 47 _ _ he47, splitOnChar_not_mem 47 _ hb47]
  unfold decodeMountSegs
  rw [show ([btoaBytes ep, btoaBytes (stringifyQV q v)] : List JStr).getD 0 (js "undefined") =
    btoaBytes ep from rfl]
  rw [show ([btoaBytes ep, btoaBytes (stringifyQV q v)] : List JStr).getD 1 (js "undefined") =
    btoaBytes (stringifyQV q v) from rfl]
  rw [atob_btoaBytes ep hend8, atob_btoaBytes (stringifyQV q v) hbody8]
  show (match jsonParse (stringifyQV q v) with
    | none => (⟨true, none, none, none, hs⟩ : MountResult)
    | some body =>
        match jsGetMember body (js "query") with
        | Except.error _ => ⟨true, some ep, none, none, hs⟩
        | Except.ok q2 =>
            match jsGetMember body (js "variables") with
            | Except.error _ => ⟨true, some ep, some q2, none, hs⟩
            | Except.ok v2 =>
                ⟨false, some ep, some q2, some v2, reconcile hs (parseQS search)⟩) = _
  rw [jsonParse_stringifyQV]
  show (match jsGetMember (Json.obj [(js "query", Json.str q), (js "variables", Json.str v)])
      (js "query") with
    | Except.error _ => (⟨true, some ep, none, none, hs⟩ : MountResult)
    | Except.ok q2 =>
        match jsGetMember (Json.obj [(js "query", Json.str q), (js "variables", Json.str v)])
            (js "variables") with
        | Except.error _ => (⟨true, some ep, some q2, none, hs⟩ : MountResult)
        | Except.ok v2 =>
            (⟨false, some ep, some q2, some v2, reconcile hs (parseQS search)⟩ : MountResult)) = _
  rw [show jsGetMember (Json.obj [(js "query", Json.str q), (js "variables", Json.str v)])
      (js "query") = Except.ok (some (Json.str q)) from by
    show Except.ok (lookupLast [(js "query", Json.str q), (js "variables", Json.str v)]
      (js "query")) = _
    rw [lookupLast_two_first _ _ _ _ (by decide)]]
  rw [show jsGetMember (Json.obj [(js "query", Json.str q), (js "variables", Json.str v)])
      (js "variables") = Except.ok (some (Json.str v)) from by
    show Except.ok (lookupLast [(js "query", Json.str q), (js "variables", Json.str v)]
      (js "variables")) = _
    rw [lookupLast_two_second]]

/-- **C1** (amended round-trip): for every form state accepted by
`handleEncodeURL` whose header texts are well-formed UTF-16 and whose two
base64 segments contain no `/` code unit, the mount-time decode of the
pushed URL sets the endpoint and the query back to the originals, sets
the variables field to `variablesValue || "\x7b\x7d"` — so an empty
variables text comes back as the two-character object literal, not as
the original empty string — and leaves the header rows as the default
empty row followed by exactly the active header pairs of the original
state, in order. -/
theorem c1_roundTrip_activeProjection (s : FormState) (url : JStr)
    (henc : handleEncodeURL s = some url)
    (hhdr : ∀ p ∈ s.headers, (∀ u ∈ (p : JStr × JStr).1, u < 65536) ∧ (∀ u ∈ p.2, u < 65536))
    (he47 : (47 : Nat) ∉ btoaBytes s.endpoint)
    (hb47 : (47 : Nat) ∉ btoaBytes (stringifyQV s.query (encVars s.variablesValue))) :
    decodeMount (urlPathname url) (urlSearch url) [(([] : JStr), ([] : JStr))] =
      ⟨false, some s.endpoint, some (some (Json.str s.query)),
        some (some (Json.str (encVars s.variablesValue))),
        (([] : JStr), ([] : JStr)) :: encodeActivePairs s.headers⟩ := by
  unfold handleEncodeURL at henc
  by_cases hguard : s.endpoint = [] ∨ s.query = []
  · rw [if_pos hguard] at henc; exact absurd henc (by simp)
  rw [if_neg hguard] at henc
  cases hbe : btoa s.endpoint with
  | none => rw [hbe] at henc; simp at henc
  | some e =>
  cases hbb : btoa (stringifyQV s.query (encVars s.variablesValue)) with
  | none => rw [hbe, hbb] at henc; simp at henc
  | some b =>
  cases hhp : headerParams s.headers with
  | none => rw [hbe, hbb, hhp] at henc; simp at henc
  | some hp =>
  rw [hbe, hbb, hhp] at henc
  replace henc : some (js "/GRAPHQL/" ++ (e ++ (47 :: (b ++
      (if hp = [] then [] else 63 :: hp))))) = some url := henc
  obtain rfl : url = js "/GRAPHQL/" ++ (e ++ (47 :: (b ++
      (if hp = [] then [] else 63 :: hp)))) := (Option.some.inj henc).symm
  have hall1 : s.endpoint.all (fun u => u < 256) = true := by
    by_contra hx
    rw [btoa, if_neg hx] at hbe
    exact absurd hbe (by simp)
  have hall2 : (stringifyQV s.query (encVars s.variablesValue)).all
      (fun u => u < 256) = true := by
    by_contra hx
    rw [btoa, if_neg hx] at hbb
    exact absurd hbb (by simp)
  rw [btoa, if_pos hall1] at hbe
  rw [btoa, if_pos hall2] at hbb
  obtain rfl : e = btoaBytes s.endpoint := (Option.some.inj hbe).symm
  obtain rfl : b = btoaBytes (stringifyQV s.query (encVars s.variablesValue)) :=
    (Option.some.inj hbb).symm
  have hend8 : ∀ u ∈ s.endpoint, u < 256 := by
    intro u hu
    simpa using List.all_eq_true.mp hall1 u hu
  have hbody8 : ∀ u ∈ stringifyQV s.query (encVars s.variablesValue), u < 256 := by
    intro u hu
    simpa using List.all_eq_true.mp hall2 u hu
  have h63 : (63 : Nat) ∉ js "/GRAPHQL/" ++ (btoaBytes s.endpoint ++
      47 :: btoaBytes (stringifyQV s.query (encVars s.variablesValue))) := by
    intro hc
    rcases List.mem_append.mp hc with hc | hc
    · revert hc; decide
    rcases List.mem_append.mp hc with hc | hc
    · exact btoaBytes_ne_63 _ hend8 63 hc rfl
    rcases List.mem_cons.mp hc with hc | hc
    · omega
    · exact btoaBytes_ne_63 _ hbody8 63 hc rfl
  by_cases hhpnil : hp = []
  · subst hhpnil
    rw [if_pos (show ([] : JStr) = [] from rfl), List.append_nil]
    rw [show urlPathname (js "/GRAPHQL/" ++ (btoaBytes s.endpoint ++
        47 :: btoaBytes (stringifyQV s.query (encVars s.variablesValue)))) =
      js "/GRAPHQL/" ++ (btoaBytes s.endpoint ++
        47 :: btoaBytes (stringifyQV s.query (encVars s.variablesValue))) from by
      unfold urlPathname
      rw [splitFirstChar_not_mem 63 _ h63]]
    rw [show urlSearch (js "/GRAPHQL/" ++ (btoaBytes s.endpoint ++
        47 :: btoaBytes (stringifyQV s.query (encVars s.variablesValue)))) = [] from by
      unfold urlSearch
      rw [splitFirstChar_not_mem 63 _ h63]
      rfl]
    rw [decodeMount_enc s.endpoint s.query (encVars s.variablesValue) [] _
      hend8 hbody8 he47 hb47]
    have hact : encodeActivePairs s.headers = [] := by
      unfold headerParams at hhp
      cases hsegs : headerSegs s.headers with
      | none => rw [hsegs] at hhp; exact absurd hhp (by simp)
      | some segs =>
          rw [hsegs] at hhp
          obtain ⟨hmap, hgs⟩ := headerSegs_spec s.headers segs hhdr hsegs
          have hsnil : segs = [] := joinAmp_eq_nil segs (fun g hg => (hgs g hg).1)
            (Option.some.inj hhp)
          rw [← hmap, hsnil]
          rfl
    rw [hact]
    rfl
  · rw [if_neg hhpnil]
    rw [show js "/GRAPHQL/" ++ (btoaBytes s.endpoint ++ (47 ::
        (btoaBytes (stringifyQV s.query (encVars s.variablesValue)) ++ 63 :: hp))) =
      (js "/GRAPHQL/" ++ (btoaBytes s.endpoint ++
        47 :: btoaBytes (stringifyQV s.query (encVars s.variablesValue)))) ++ 63 :: hp from by
      simp [List.append_assoc]]
    rw [show urlPathname ((js "/GRAPHQL/" ++ (btoaBytes s.endpoint ++
        47 :: btoaBytes (stringifyQV s.query (encVars s.variablesValue)))) ++ 63 :: hp) =
      js "/GRAPHQL/" ++ (btoaBytes s.endpoint ++
        47 :: btoaBytes (stringifyQV s.query (encVars s.variablesValue))) from by
      unfold urlPathname
      rw [splitFirstChar_append 63 _ hp h63]]
    rw [show urlSearch ((js "/GRAPHQL/" ++ (btoaBytes s.endpoint ++
        47 :: btoaBytes (stringifyQV s.query (encVars s.variablesValue)))) ++ 63 :: hp) =
      hp from by
      unfold urlSearch
      rw [splitFirstChar_append 63 _ hp h63]
      rfl]
    rw [decodeMount_enc s.endpoint s.query (encVars s.variablesValue) hp _
      hend8 hbody8 he47 hb47]
    rw [parseQS_headerParams s.headers hp hhdr hhp]
    have hkeys : ∀ p ∈ encodeActivePairs s.headers, (p : JStr × JStr).1 ≠ [] := by
      intro p hpm
      have hf := List.of_mem_filter hpm
      simp only [Bool.and_eq_true, Bool.not_eq_true', List.isEmpty_eq_false, ne_eq] at hf
      exact hf.1
    rw [reconcile_default _ hkeys]

theorem c1_roundTrip_activeProjection_witness :
    decodeMount
        (urlPathname ((handleEncodeURL
          ⟨js "a", js "b", js "\x7b\x7d", [(js "k", js "v")]⟩).getD []))
        (urlSearch ((handleEncodeURL
          ⟨js "a", js "b", js "\x7b\x7d", [(js "k", js "v")]⟩).getD []))
        [(([] : JStr), ([] : JStr))] =
      ⟨false, some (js "a"), some (some (Json.str (js "b"))),
        some (some (Json.str (encVars (js "\x7b\x7d")))),
        (([] : JStr), ([] : JStr)) :: encodeActivePairs [(js "k", js "v")]⟩ := by
  have henc : handleEncodeURL ⟨js "a", js "b", js "\x7b\x7d", [(js "k", js "v")]⟩ =
      some ((handleEncodeURL
        ⟨js "a", js "b", js "\x7b\x7d", [(js "k", js "v")]⟩).getD []) := by decide
  exact c1_roundTrip_activeProjection _ _ henc (by decide) (by decide) (by decide)

/-- **C1** counterexample to the frozen claim: the state with empty
variables (allowed: "empty-or-valid-JSON variables"), non-empty endpoint
and query and one active header pair encodes successfully, but the
decode of the produced URL sets the variables field to the two-character
string `"\x7b\x7d"`, not to the original empty variables text — the
active-state projection is not reconstructed. -/
theorem c1_counterexample_emptyVariables :
    ∃ s : FormState, ∃ url : JStr,
      s.endpoint ≠ [] ∧ s.query ≠ [] ∧ s.variablesValue = [] ∧
      encodeActivePairs s.headers ≠ [] ∧
      handleEncodeURL s = some url ∧
      (decodeMount (urlPathname url) (urlSearch url)
          [(([] : JStr), ([] : JStr))]).variablesSet ≠
        some (some (Json.str s.variablesValue)) := by
  refine ⟨⟨js "a", js "b", [], [(js "k", js "v")]⟩,
    (handleEncodeURL ⟨js "a", js "b", [], [(js "k", js "v")]⟩).getD [],
    by decide, by decide, rfl, by decide, by decide, ?_⟩
  rw [show (decodeMount
      (urlPathname ((handleEncodeURL ⟨js "a", js "b", [], [(js "k", js "v")]⟩).getD []))
      (urlSearch ((handleEncodeURL ⟨js "a", js "b", [], [(js "k", js "v")]⟩).getD []))
      [(([] : JStr), ([] : JStr))]).variablesSet =
    some (some (Json.str (js "\x7b\x7d"))) from rfl]
  intro h
  injection h with h1
  injection h1 with h2
  injection h2 with h3
  exact absurd h3 (by decide)

/-- **C2**: the mount-time decode effect *can* throw an uncaught
exception, and the corrupt decode is partially applied: on the path
`/GRAPHQL/eA==/bnVsbA==` (base64 of `"x"` and of `"null"`), both base64
segments decode and `JSON.parse` yields `null`, so reading `.query` of
`null` throws a `TypeError` — there is no `try`/`catch` around the
effect — after `setValue("endpoint", "x")` has already run. -/
theorem c2_decode_throws_partially_applied :
    decodeMount (js "/GRAPHQL/eA==/bnVsbA==") [] [(([] : JStr), ([] : JStr))] =
      ⟨true, some (js "x"), none, none, [(([] : JStr), ([] : JStr))]⟩ := rfl

/-! ## `handleFormSubmit` -/

/-- Code units removed by `String.prototype.trim`
(JS WhiteSpace ∪ LineTerminator). -/
def jsWsChar (c : Nat) : Bool :=
  c = 9 || c = 10 || c = 11 || c = 12 || c = 13 || c = 32 || c = 160 ||
  c = 5760 || (8192 ≤ c && c ≤ 8202) || c = 8232 || c = 8233 || c = 8239 ||
  c = 8287 || c = 12288 || c = 65279

/-- `String.prototype.trim`. -/
def jsTrim (s : JStr) : JStr :=
  ((s.dropWhile jsWsChar).reverse.dropWhile jsWsChar).reverse

/-- One step of the `headers.reduce` in `handleFormSubmit`: a pair is
added to the accumulator object iff both key and value are non-empty
after trimming; the *untrimmed* key and value are stored, and
`acc[key] = value` overwrites an existing binding of the same key in
place. -/
def headersObjectStep (acc : List (JStr × JStr)) (p : JStr × JStr) :
    List (JStr × JStr) :=
  if jsTrim p.1 ≠ [] ∧ jsTrim p.2 ≠ [] then
    match acc.findIdx? (fun q => decide (q.1 = p.1)) with
    | some i => acc.set i p
    | none => acc ++ [p]
  else acc

/-- The `headersObject` record sent with the request, as an ordered
association list. -/
def headersObject (hs : List (JStr × JStr)) : List (JStr × JStr) :=
  hs.foldl headersObjectStep []

/-- The header pairs `handleFormSubmit` treats as active (non-empty key
and value after trimming). -/
def submitActivePairs (hs : List (JStr × JStr)) : List (JStr × JStr) :=
  hs.filter (fun p => !(jsTrim p.1).isEmpty && !(jsTrim p.2).isEmpty)

/-- Outcome of `fetch` plus `res.json()` for one submission, supplied by
the environment: the transport resolves and the body parses; the
transport resolves but `res.json()` rejects; or `fetch` itself rejects.
The message is the low-level text of the thrown `Error`. -/
inductive Transport where
  | ok (status : Nat) (body : Json)
  | jsonFail (status : Nat) (msg : JStr)
  | netErr (msg : JStr)

/-- Argument of `setResponse`: a parsed payload, or the object with a
single `error` member. -/
inductive RespData where
  | success (payload : Json)
  | failure (msg : JStr)

/-- Observable effect of one `handleFormSubmit` run: whether `fetch` was
reached, the header object and body it was given, and the final
`status`/`response` state. -/
structure SubmitResult where
  attempted : Bool
  sentHeaders : List (JStr × JStr)
  sentBody : Option (JStr × Json)
  status : Option Nat
  response : Option RespData

/-- `variables ? JSON.parse(variables) : {}` — the body's variables
member; `none` models the `JSON.parse` throw. -/
def parsedVars (v : JStr) : Option Json :=
  if v = [] then some (Json.obj []) else jsonParse v

/-- `handleFormSubmit`, parametrised by the transport outcome: build the
header object, parse the variables (a `JSON.parse` throw lands in the
same `catch` as a transport failure, before `fetch` is reached), send,
and record status and response. -/
def handleFormSubmit (d : FormState) (tr : Transport) : SubmitResult :=
  match parsedVars d.variablesValue with
  | none =>
      ⟨false, headersObject d.headers, none, some 500,
        some (RespData.failure (js "Request failed"))⟩
  | some vj =>
      match tr with
      | Transport.ok st body =>
          ⟨true, headersObject d.headers, some (d.query, vj), some st,
            some (RespData.success body)⟩
      | Transport.jsonFail _ _ =>
          ⟨true, headersObject d.headers, some (d.query, vj), some 500,
            some (RespData.failure (js "Request failed"))⟩
      | Transport.netErr _ =>
          ⟨true, headersObject d.headers, some (d.query, vj), some 500,
            some (RespData.failure (js "Request failed"))⟩

/-- **C4**: whenever the transport throws — `fetch` rejects, or the
response body fails to parse as JSON — the submission ends with status
`500` and the generic `{error: "Request failed"}` payload, whatever the
underlying error message was; no low-level error text reaches the UI
state. -/
theorem c4_transport_failure_collapse (d : FormState) (tr : Transport)
    (h : (∃ st m, tr = Transport.jsonFail st m) ∨ (∃ m, tr = Transport.netErr m)) :
    (handleFormSubmit d tr).status = some 500 ∧
    (handleFormSubmit d tr).response = some (RespData.failure (js "Request failed")) := by
  rcases h with ⟨st, m, rfl⟩ | ⟨m, rfl⟩ <;>
  · unfold handleFormSubmit
    cases parsedVars d.variablesValue <;> exact ⟨rfl, rfl⟩

theorem c4_transport_failure_collapse_witness :
    (handleFormSubmit ⟨js "e", js "q", [], []⟩
        (Transport.netErr (js "socket hang up"))).status = some 500 ∧
    (handleFormSubmit ⟨js "e", js "q", [], []⟩
        (Transport.netErr (js "socket hang up"))).response =
      some (RespData.failure (js "Request failed")) :=
  c4_transport_failure_collapse _ _ (Or.inr ⟨js "socket hang up", rfl⟩)

/-- **C5**: when the transport succeeds and the body parses, the recorded
status is the actual HTTP status and the response is the parsed payload —
also for a non-2xx status such as 404; the variables must themselves
parse, otherwise `fetch` is never reached. -/
theorem c5_status_transparency (d : FormState) (st : Nat) (body vj : Json)
    (hv : parsedVars d.variablesValue = some vj) :
    handleFormSubmit d (Transport.ok st body) =
      ⟨true, headersObject d.headers, some (d.query, vj), some st,
        some (RespData.success body)⟩ := by
  unfold handleFormSubmit
  rw [hv]

theorem c5_status_transparency_witness :
    handleFormSubmit ⟨js "e", js "q", [], []⟩ (Transport.ok 404 (Json.obj [])) =
      ⟨true, headersObject [], some (js "q", Json.obj []), some 404,
        some (RespData.success (Json.obj []))⟩ :=
  c5_status_transparency ⟨js "e", js "q", [], []⟩ 404 (Json.obj []) (Json.obj []) rfl

/-- **C8** (amended): invalid non-empty variables do abort the submission
before the network call (`fetch` is not attempted), and blank variables
are accepted, defaulting to the empty object; but the failure is *not*
surfaced distinctly — it produces exactly the generic transport-failure
output, status `500` with `{error: "Request failed"}`. -/
theorem c8_invalid_variables_abort (d : FormState) (tr : Transport)
    (hne : d.variablesValue ≠ []) (hbad : jsonParse d.variablesValue = none) :
    (handleFormSubmit d tr).attempted = false ∧
    (handleFormSubmit d tr).status = some 500 ∧
    (handleFormSubmit d tr).response = some (RespData.failure (js "Request failed")) ∧
    parsedVars [] = some (Json.obj []) := by
  have hp : parsedVars d.variablesValue = none := by
    unfold parsedVars
    rw [if_neg hne]
    exact hbad
  unfold handleFormSubmit
  rw [hp]
  exact ⟨rfl, rfl, rfl, rfl⟩

theorem c8_invalid_variables_abort_witness :
    (handleFormSubmit ⟨js "e", js "q", js "\x7b", []⟩
        (Transport.ok 200 Json.null)).attempted = false ∧
    (handleFormSubmit ⟨js "e", js "q", js "\x7b", []⟩
        (Transport.ok 200 Json.null)).status = some 500 ∧
    (handleFormSubmit ⟨js "e", js "q", js "\x7b", []⟩
        (Transport.ok 200 Json.null)).response =
      some (RespData.failure (js "Request failed")) ∧
    parsedVars [] = some (Json.obj []) :=
  c8_invalid_variables_abort ⟨js "e", js "q", js "\x7b", []⟩
    (Transport.ok 200 Json.null) (by decide) rfl

/-- **C8** counterexample to the frozen claim: the submission-time
variables parse failure is *not* distinct from the generic transport
failure — a submission with unparseable variables and one with valid
variables whose transport throws produce identical status and response
state. -/
theorem c8_counterexample_not_distinct :
    (handleFormSubmit ⟨js "e", js "q", js "\x7b", []⟩
        (Transport.ok 200 Json.null)).status =
      (handleFormSubmit ⟨js "e", js "q", [], []⟩
        (Transport.netErr (js "socket hang up"))).status ∧
    (handleFormSubmit ⟨js "e", js "q", js "\x7b", []⟩
        (Transport.ok 200 Json.null)).response =
      (handleFormSubmit ⟨js "e", js "q", [], []⟩
        (Transport.netErr (js "socket hang up"))).response :=
  ⟨rfl, rfl⟩

theorem foldl_headersObjectStep_filter (hs : List (JStr × JStr)) :
    ∀ acc, hs.foldl headersObjectStep acc =
      (hs.filter (fun p => !(jsTrim p.1).isEmpty && !(jsTrim p.2).isEmpty)).foldl
        headersObjectStep acc := by
  induction hs with
  | nil => intro acc; rfl
  | cons p rest ih =>
      intro acc
      rw [List.foldl_cons, List.filter_cons]
      by_cases hp2 : (!(jsTrim p.1).isEmpty && !(jsTrim p.2).isEmpty) = true
      · rw [if_pos hp2, List.foldl_cons, ih]
      · rw [if_neg hp2]
        have hcond : ¬(jsTrim p.1 ≠ [] ∧ jsTrim p.2 ≠ []) := by
          simp only [Bool.and_eq_true, Bool.not_eq_true', List.isEmpty_eq_false,
            ne_eq] at hp2 ⊢
          exact hp2
        rw [show headersObjectStep acc p = acc from by
          unfold headersObjectStep
          rw [if_neg hcond]]
        exact ih acc

/-- **C10**: submission and encoding disagree on which header pairs are
active: every pair treated as active by `handleFormSubmit` (non-empty
key and value after trimming) is also encoded into the URL; the header
object actually sent is fully determined by the trim-filtered pairs; and
a pair that is non-empty untrimmed but whitespace-only in its key or
value is encoded into the shared URL yet is not among the
submission-active pairs that build the sent header object. -/
theorem c10_active_pairs_differ (hs : List (JStr × JStr)) (p : JStr × JStr) :
    (p ∈ submitActivePairs hs → p ∈ encodeActivePairs hs) ∧
    headersObject hs = headersObject (submitActivePairs hs) ∧
    (p ∈ hs → p.1 ≠ [] → p.2 ≠ [] → (jsTrim p.1 = [] ∨ jsTrim p.2 = []) →
      p ∈ encodeActivePairs hs ∧ p ∉ submitActivePairs hs) := by
  refine ⟨?_, ?_, ?_⟩
  · intro hmem
    obtain ⟨hin, hpred⟩ := List.mem_filter.mp hmem
    refine List.mem_filter.mpr ⟨hin, ?_⟩
    simp only [Bool.and_eq_true, Bool.not_eq_true', List.isEmpty_eq_false,
      ne_eq] at hpred ⊢
    constructor
    · intro h0; exact hpred.1 (by rw [h0]; rfl)
    · intro h0; exact hpred.2 (by rw [h0]; rfl)
  · unfold headersObject submitActivePairs
    exact foldl_headersObjectStep_filter hs []
  · intro hin h1 h2 hws
    constructor
    · refine List.mem_filter.mpr ⟨hin, ?_⟩
      simp only [Bool.and_eq_true, Bool.not_eq_true', List.isEmpty_eq_false, ne_eq]
      exact ⟨h1, h2⟩
    · intro hmem
      obtain ⟨_, hpred⟩ := List.mem_filter.mp hmem
      simp only [Bool.and_eq_true, Bool.not_eq_true', List.isEmpty_eq_false,
        ne_eq] at hpred
      rcases hws with hws | hws
      · exact hpred.1 hws
      · exact hpred.2 hws

theorem c10_active_pairs_differ_witness :
    (js " ", js "v") ∈ encodeActivePairs [(js " ", js "v")] ∧
    (js " ", js "v") ∉ submitActivePairs [(js " ", js "v")] :=
  (c10_active_pairs_differ [(js " ", js "v")] (js " ", js "v")).2.2
    (by decide) (by decide) (by decide) (by decide)

/-! ## `fetchSDL`, its guard, and the `sdlEndpoint` effect -/

/-- The schema / SDL-error slice of the component state. -/
structure SdlState where
  schema : Option JStr
  sdlError : Option JStr

/-- Initial state: `useState<string | null>(null)` for both. -/
def sdlInit : SdlState := ⟨none, none⟩

/-- Result of the awaited `fetch` inside `fetchSDL`. -/
inductive SdlOutcome where
  | ok (text : JStr)
  | httpNotOk (status : Nat)
  | netErr (msg : JStr)

/-- One completed `fetchSDL` call: HTTP OK stores the response text and
clears the error; a non-OK status (the `throw new Error` path) or a
transport throw stores the generic error text and clears the schema. -/
def fetchSDLStep (st : SdlState) (o : SdlOutcome) : SdlState :=
  match o with
  | SdlOutcome.ok t => ⟨some t, none⟩
  | SdlOutcome.httpNotOk _ => ⟨none, some (js "Failed to load documentation")⟩
  | SdlOutcome.netErr _ => ⟨none, some (js "Failed to load documentation")⟩

/-- Exactly one of schema / error is populated. -/
def populatedExactlyOne (st : SdlState) : Bool :=
  (st.schema.isSome && st.sdlError.isNone) || (st.schema.isNone && st.sdlError.isSome)

/-- **C9** (amended): after every *completed* `fetchSDL` call exactly one
of schema/error is populated — success stores the schema text and clears
any prior error, failure stores the generic error and clears any prior
schema — but at the initial lifecycle point, before the first completed
fetch, neither is populated. -/
theorem c9_sdl_exactly_one_after_fetch (st : SdlState) (o : SdlOutcome) :
    populatedExactlyOne (fetchSDLStep st o) = true ∧
    (∀ t, o = SdlOutcome.ok t → fetchSDLStep st o = ⟨some t, none⟩) ∧
    ((∃ n, o = SdlOutcome.httpNotOk n) ∨ (∃ m, o = SdlOutcome.netErr m) →
      fetchSDLStep st o = ⟨none, some (js "Failed to load documentation")⟩) := by
  refine ⟨?_, ?_, ?_⟩
  · cases o <;> rfl
  · rintro t rfl; rfl
  · rintro (⟨n, rfl⟩ | ⟨m, rfl⟩) <;> rfl

theorem c9_sdl_exactly_one_after_fetch_witness :
    populatedExactlyOne (fetchSDLStep sdlInit (SdlOutcome.ok (js "type Query"))) = true ∧
    fetchSDLStep sdlInit (SdlOutcome.ok (js "type Query")) =
      ⟨some (js "type Query"), none⟩ :=
  ⟨(c9_sdl_exactly_one_after_fetch sdlInit (SdlOutcome.ok (js "type Query"))).1,
   (c9_sdl_exactly_one_after_fetch sdlInit
      (SdlOutcome.ok (js "type Query"))).2.1 (js "type Query") rfl⟩

/-- **C9** counterexample to the frozen claim: at the initial lifecycle
point — before any fetch has completed — neither the schema nor the
error is populated, so "exactly one of schema, error is populated at
every point in the lifecycle" fails. -/
theorem c9_counterexample_initial_state :
    populatedExactlyOne sdlInit = false := rfl

/-- The guard of the `[sdlEndpoint]` effect. -/
def shouldFetchSDL (s : JStr) : Bool :=
  if s = [] ∨ s = js "undefined?sdl" ∨ s = js "?sdl" then false else true

/-- The members of a render sequence of `sdlEndpoint` values at which the
`[sdlEndpoint]` effect re-runs: those differing from the previous value. -/
def changedValues : Option JStr → List JStr → List JStr
  | _, [] => []
  | prev, v :: rest =>
      if some v = prev then changedValues prev rest
      else v :: changedValues (some v) rest

/-- The `fetchSDL` calls issued over a render sequence of `sdlEndpoint`
values: the effect runs at each change and calls `fetchSDL` iff the
guard admits the new value. -/
def sdlFetchCalls : Option JStr → List JStr → List JStr
  | _, [] => []
  | prev, v :: rest =>
      if some v = prev then sdlFetchCalls prev rest
      else if shouldFetchSDL v then v :: sdlFetchCalls (some v) rest
      else sdlFetchCalls (some v) rest

theorem changedValues_cons (prev : Option JStr) (v : JStr) (rest : List JStr) :
    changedValues prev (v :: rest) =
      if some v = prev then changedValues prev rest
      else v :: changedValues (some v) rest := rfl

theorem sdlFetchCalls_cons (prev : Option JStr) (v : JStr) (rest : List JStr) :
    sdlFetchCalls prev (v :: rest) =
      if some v = prev then sdlFetchCalls prev rest
      else if shouldFetchSDL v then v :: sdlFetchCalls (some v) rest
      else sdlFetchCalls (some v) rest := rfl

/-- **C7**: over any render sequence of effective SDL-endpoint values,
the schema-fetcher calls are exactly the changed values that pass the
guard: no call is ever made for the empty string or for the placeholders
`"undefined?sdl"` / `"?sdl"`, and every change to any other value fires
a fetch. -/
theorem c7_guarded_schema_fetch (prev : Option JStr) (vs : List JStr) :
    sdlFetchCalls prev vs = (changedValues prev vs).filter shouldFetchSDL := by
  induction vs generalizing prev with
  | nil => rfl
  | cons v rest ih =>
      rw [sdlFetchCalls_cons, changedValues_cons]
      by_cases hch : some v = prev
      · rw [if_pos hch, if_pos hch, ih prev]
      · rw [if_neg hch, if_neg hch, List.filter_cons]
        by_cases hg : shouldFetchSDL v = true
        · rw [if_pos hg, if_pos hg, ih (some v)]
        · rw [if_neg hg, if_neg hg, ih (some v)]

/-- The endpoint / SDL-field slice of the form state (`none` = the field
has never been set; `watch` returns `undefined` for it). -/
structure GState where
  endpoint : Option JStr
  sdlField : Option JStr

def gInit : GState := ⟨none, none⟩

/-- A user edit of the endpoint field or of the SDL URL field. -/
inductive GEvent where
  | editEndpoint (v : JStr)
  | editSdl (v : JStr)

/-- One edit followed by the `[endpointValue]` effect: an endpoint change
re-runs `setValue("sdlEndpoint", endpointValue ? endpointValue + "?sdl" : "")`
unconditionally; an edit that leaves the endpoint value unchanged does
not re-run the effect. -/
def gStep (st : GState) (e : GEvent) : GState :=
  match e with
  | GEvent.editEndpoint v =>
      if some v = st.endpoint then st
      else ⟨some v, some (if v = [] then [] else v ++ js "?sdl")⟩
  | GEvent.editSdl v => ⟨st.endpoint, some v⟩

/-- `watch("sdlEndpoint") || endpointValue + "?sdl"`: the effective SDL
endpoint; an unset endpoint interpolates as the string `"undefined"`. -/
def effectiveSdl (st : GState) : JStr :=
  match st.sdlField with
  | some w => if w = [] then (st.endpoint.getD (js "undefined")) ++ js "?sdl" else w
  | none => (st.endpoint.getD (js "undefined")) ++ js "?sdl"

/-- **C3** (amended): the SDL field does default to `endpoint + "?sdl"`
— when the SDL field is unset or empty the effective SDL endpoint is the
derived default — and it is recomputed on every endpoint change, but
*unconditionally*: the recomputation does not depend on whether the user
typed into the SDL field, so the derived default always overwrites a
manual value. -/
theorem c3_sdl_default_overwrites (st : GState) (v : JStr)
    (hch : some v ≠ st.endpoint) :
    (gStep st (GEvent.editEndpoint v)).sdlField =
      some (if v = [] then [] else v ++ js "?sdl") ∧
    (st.sdlField = none ∨ st.sdlField = some [] →
      effectiveSdl st = (st.endpoint.getD (js "undefined")) ++ js "?sdl") := by
  constructor
  · show (if some v = st.endpoint then st
      else ⟨some v, some (if v = [] then [] else v ++ js "?sdl")⟩ : GState).sdlField =
        some (if v = [] then [] else v ++ js "?sdl")
    rw [if_neg hch]
  · rintro (h | h)
    · unfold effectiveSdl
      rw [h]
    · unfold effectiveSdl
      rw [h]
      rfl

theorem c3_sdl_default_overwrites_witness :
    (gStep ⟨none, some (js "mysdl")⟩ (GEvent.editEndpoint (js "api"))).sdlField =
      some (if js "api" = [] then [] else js "api" ++ js "?sdl") :=
  (c3_sdl_default_overwrites ⟨none, some (js "mysdl")⟩ (js "api") (by decide)).1

/-- **C3** counterexample to the frozen claim: type `"mysdl"` directly
into the SDL field, then change the endpoint to `"api"` — the effect
overwrites the manual SDL value with the derived `"api?sdl"`; explicit
input does not win over the derived default. -/
theorem c3_counterexample_manual_overwritten :
    gStep (gStep gInit (GEvent.editSdl (js "mysdl"))) (GEvent.editEndpoint (js "api")) =
      ⟨some (js "api"), some (js "api?sdl")⟩ ∧
    js "api?sdl" ≠ js "mysdl" := by
  constructor
  · rfl
  · decide

/-! ## Full characterisation of the header reconciliation -/

/-- An incoming pair whose key matches no snapshot row. -/
def unmatchedKey (snap : List (JStr × JStr)) (p : JStr × JStr) : Bool :=
  (snap.findIdx? (fun h => decide (h.1 = p.1))).isNone

/-- The last incoming pair whose key first-matches snapshot index `i`. -/
def lastWrite (snap ps : List (JStr × JStr)) (i : Nat) : Option (JStr × JStr) :=
  (ps.filter (fun q =>
    decide (snap.findIdx? (fun h => decide (h.1 = q.1)) = some i))).getLast?

theorem findIdx?_go_spec (p : (JStr × JStr) → Bool) (d : JStr × JStr) :
    ∀ (l : List (JStr × JStr)) (j i : Nat), List.findIdx? p l j = some i →
      j ≤ i ∧ i - j < l.length ∧ p (l.getD (i - j) d) = true := by
  intro l
  induction l with
  | nil => intro j i h; rw [List.findIdx?_nil] at h; exact absurd h (by simp)
  | cons x xs ih =>
      intro j i h
      rw [List.findIdx?_cons] at h
      by_cases hp : p x = true
      · rw [if_pos hp] at h
        obtain rfl : i = j := (Option.some.inj h).symm
        refine ⟨le_refl _, by simp, ?_⟩
        rw [Nat.sub_self, List.getD_cons_zero]
        exact hp
      · rw [if_neg hp] at h
        obtain ⟨hj1, hlt, hp2⟩ := ih (j + 1) i h
        refine ⟨by omega, by simp only [List.length_cons]; omega, ?_⟩
        rw [show i - j = (i - (j + 1)) + 1 from by omega, List.getD_cons_succ]
        exact hp2

theorem findIdx?_some_spec (p : (JStr × JStr) → Bool) (l : List (JStr × JStr))
    (i : Nat) (d : JStr × JStr) (h : l.findIdx? p = some i) :
    i < l.length ∧ p (l.getD i d) = true := by
  obtain ⟨_, h2, h3⟩ := findIdx?_go_spec p d l 0 i h
  rw [Nat.sub_zero] at h2 h3
  exact ⟨h2, h3⟩

theorem lastWrite_ge_none (snap ps : List (JStr × JStr)) (i : Nat)
    (h : snap.length ≤ i) : lastWrite snap ps i = none := by
  unfold lastWrite
  rw [List.getLast?_eq_none_iff, List.filter_eq_nil_iff]
  intro q hq
  simp only [decide_eq_true_eq]
  intro hsome
  obtain ⟨hlt, _⟩ := findIdx?_some_spec _ snap i (([], []) : JStr × JStr) hsome
  omega

theorem map_range_getD (cur : List (JStr × JStr)) :
    (List.range cur.length).map (fun i => cur.getD i (([], []) : JStr × JStr)) = cur := by
  apply List.ext_getElem
  · simp
  · intro n h1 h2
    rw [List.getElem_map, List.getElem_range, List.getD_eq_getElem cur _ h2]

theorem foldl_reconcileStep_spec (snap : List (JStr × JStr)) :
    ∀ (ps cur : List (JStr × JStr)), snap.length ≤ cur.length →
    ps.foldl (reconcileStep snap) cur =
      (List.range cur.length).map (fun i =>
        (lastWrite snap ps i).getD (cur.getD i (([], []) : JStr × JStr))) ++
      ps.filter (unmatchedKey snap) := by
  intro ps
  induction ps with
  | nil =>
      intro cur hlen
      rw [List.foldl_nil, List.filter_nil, List.append_nil]
      rw [show (fun i => (lastWrite snap [] i).getD (cur.getD i (([], []) : JStr × JStr))) =
        (fun i => cur.getD i (([], []) : JStr × JStr)) from rfl]
      exact (map_range_getD cur).symm
  | cons p ps2 ih =>
      intro cur hlen
      rw [List.foldl_cons]
      cases hidx : snap.findIdx? (fun h => decide (h.1 = p.1)) with
      | some i0 =>
          obtain ⟨hi0lt, _⟩ :=
            findIdx?_some_spec _ snap i0 (([], []) : JStr × JStr) hidx
          rw [show reconcileStep snap cur p = cur.set i0 p from by
            unfold reconcileStep; rw [hidx]]
          rw [ih (cur.set i0 p) (by rw [List.length_set]; exact hlen)]
          rw [List.length_set]
          have hfil : (p :: ps2).filter (unmatchedKey snap) =
              ps2.filter (unmatchedKey snap) := by
            rw [List.filter_cons, if_neg (by
              unfold unmatchedKey
              rw [hidx]
              simp)]
          rw [hfil]
          congr 1
          apply List.map_congr_left
          intro i hi
          have hilt : i < cur.length := List.mem_range.mp hi
          by_cases hii : i = i0
          · subst hii
            have hlw : lastWrite snap (p :: ps2) i =
                some ((lastWrite snap ps2 i).getD p) := by
              unfold lastWrite
              rw [List.filter_cons, if_pos (by rw [hidx]; simp)]
              rw [List.getLast?_cons]
            rw [hlw]
            rw [show Option.getD (some ((lastWrite snap ps2 i).getD p))
                (cur.getD i (([], []) : JStr × JStr)) =
              (lastWrite snap ps2 i).getD p from rfl]
            rw [List.getD_eq_getElem (cur.set i p) _ (by rw [List.length_set]; exact hilt)]
            rw [List.getElem_set_self]
          · have hlw : lastWrite snap (p :: ps2) i = lastWrite snap ps2 i := by
              unfold lastWrite
              rw [List.filter_cons, if_neg (by
                rw [hidx]
                simp only [decide_eq_true_eq, Option.some.injEq]
                exact fun h => hii h.symm)]
            rw [hlw]
            rw [List.getD_eq_getElem (cur.set i0 p) _ (by rw [List.length_set]; exact hilt)]
            rw [List.getElem_set_ne (fun h => hii h.symm)]
            rw [List.getD_eq_getElem cur _ hilt]
      | none =>
          rw [show reconcileStep snap cur p = cur ++ [p] from by
            unfold reconcileStep; rw [hidx]]
          rw [ih (cur ++ [p]) (by rw [List.length_append]; omega)]
          rw [show (cur ++ [p]).length = cur.length + 1 from by
            rw [List.length_append]; rfl]
          have hfil : (p :: ps2).filter (unmatchedKey snap) =
              p :: ps2.filter (unmatchedKey snap) := by
            rw [List.filter_cons, if_pos (by unfold unmatchedKey; rw [hidx]; rfl)]
          rw [List.range_succ, List.map_append, List.map_singleton, hfil]
          show (List.range cur.length).map (fun i =>
              (lastWrite snap ps2 i).getD ((cur ++ [p]).getD i (([], []) : JStr × JStr))) ++
            [(lastWrite snap ps2 cur.length).getD
              ((cur ++ [p]).getD cur.length (([], []) : JStr × JStr))] ++
            ps2.filter (unmatchedKey snap) =
            (List.range cur.length).map (fun i =>
              (lastWrite snap (p :: ps2) i).getD (cur.getD i (([], []) : JStr × JStr))) ++
            (p :: ps2.filter (unmatchedKey snap))
          rw [lastWrite_ge_none snap ps2 cur.length hlen]
          rw [show ((cur ++ [p]).getD cur.length (([], []) : JStr × JStr)) = p from by
            rw [List.getD_eq_getElem (cur ++ [p]) _ (by
              rw [List.length_append]; simp)]
            rw [List.getElem_append_right (le_refl cur.length)]
            simp]
          rw [show Option.getD (none : Option (JStr × JStr)) p = p from rfl]
          rw [List.append_assoc, List.singleton_append]
          congr 1
          apply List.map_congr_left
          intro i hi
          have hilt : i < cur.length := List.mem_range.mp hi
          have hlw : lastWrite snap (p :: ps2) i = lastWrite snap ps2 i := by
            unfold lastWrite
            rw [List.filter_cons, if_neg (by rw [hidx]; simp)]
          rw [hlw]
          rw [List.getD_append cur [p] _ i hilt]

/-- **C6**: the reconciliation loop never removes a row — the result is
at least as long as the snapshot — a snapshot row whose index no
incoming key first-matches keeps its original pair (in particular every
row not mentioned by the incoming pairs, preserving original order), and
the exact result is: position `i` of the snapshot receives the last
incoming pair whose key first-matches row `i` (update-in-place at the
first matching row), followed by every incoming pair whose key matches
no snapshot row, appended in arrival order. -/
theorem c6_reconcile_first_match_or_append (H P : List (JStr × JStr)) :
    H.length ≤ (reconcile H P).length ∧
    (∀ i, i < H.length →
      (∀ p ∈ P, H.findIdx? (fun h => decide (h.1 = p.1)) ≠ some i) →
      (reconcile H P).getD i (([], []) : JStr × JStr) =
        H.getD i (([], []) : JStr × JStr)) ∧
    reconcile H P =
      (List.range H.length).map (fun i =>
        (lastWrite H P i).getD (H.getD i (([], []) : JStr × JStr))) ++
      P.filter (unmatchedKey H) := by
  have hchar := foldl_reconcileStep_spec H P H (le_refl _)
  refine ⟨?_, ?_, hchar⟩
  · unfold reconcile
    rw [hchar, List.length_append, List.length_map, List.length_range]
    exact Nat.le_add_right _ _
  · intro i hi hnom
    unfold reconcile
    rw [hchar]
    have hlw : lastWrite H P i = none := by
      unfold lastWrite
      rw [List.getLast?_eq_none_iff, List.filter_eq_nil_iff]
      intro q hq
      simp only [decide_eq_true_eq]
      exact hnom q hq
    rw [List.getD_append _ _ _ i (by rw [List.length_map, List.length_range]; exact hi)]
    rw [List.getD_eq_getElem _ _ (by rw [List.length_map, List.length_range]; exact hi)]
    rw [List.getElem_map, List.getElem_range, hlw]
    rfl

theorem c6_reconcile_first_match_or_append_witness :
    ([(js "a", js "1")] : List (JStr × JStr)).length ≤
      (reconcile [(js "a", js "1")] [(js "b", js "2")]).length ∧
    (reconcile [(js "a", js "1")] [(js "b", js "2")]).getD 0
        (([], []) : JStr × JStr) =
      ([(js "a", js "1")] : List (JStr × JStr)).getD 0 (([], []) : JStr × JStr) :=
  ⟨(c6_reconcile_first_match_or_append [(js "a", js "1")] [(js "b", js "2")]).1,
   (c6_reconcile_first_match_or_append [(js "a", js "1")] [(js "b", js "2")]).2.1 0
     (by decide) (by decide)⟩

end GraphiQL